import Mathlib

/-!
# StatCoin ledger: shallow embedding and verification

Shallow embedding of the trading/staking/portfolio/achievement ledger of the
StatCoinReplit repository: the `MemStorage` class (storage module) and the
buy/sell/swap HTTP handlers (`routes.ts`).

Modelling conventions:
* JavaScript `Map` stores keyed by sequential ids become Lean lists in
  insertion order (a `Map` iterates in insertion order and holds at most one
  entry per id); id counters are carried in the state.
* JavaScript `number` / numeric strings (`tokenPrice`, prices, totalValue)
  become `ℚ`; token amounts are integers in the schema and become `Nat`;
  achievement progress becomes `Int` (it can be a floored value).
* `Date` timestamps become `Nat` ticks; `stakingEnd.setDate(+lockPeriodDays)`
  is modelled as adding `lockPeriodDays` ticks (a uniform unit change).
* Fallible storage methods (`throw`) become `Except String`; each HTTP
  handler becomes a function returning `Option String × State`: the first
  component is the error message of the 4xx/500 response (`none` on success)
  and the second is the resulting store state, so that the partial mutations
  the source performs before a late failure are kept faithfully.
* The required-field guards (`if (!userId || !playerId || !amount || !price)`)
  reject JavaScript falsy values; on the numeric model that is the value `0`.
-/

namespace StatCoin

/-- A player record; only the fields the ledger logic reads are carried
(`sport` and `tokenPrice`; `id` is the store key). -/
structure Player where
  id : Nat
  sport : String
  tokenPrice : ℚ
deriving DecidableEq, Repr

/-- A token holding, as in the `tokenHoldings` table / store. -/
structure TokenHolding where
  id : Nat
  userId : Nat
  playerId : Nat
  amount : Nat
  purchasePrice : ℚ
  isStaked : Bool
  stakingPlan : Option String
  stakingStart : Option Nat
  stakingEnd : Option Nat
deriving DecidableEq, Repr

/-- A transaction record (`type` is one of buy/sell/swap/stake/unstake). -/
structure Transaction where
  id : Nat
  userId : Nat
  playerId : Nat
  type : String
  amount : Nat
  price : ℚ
  fromPlayerId : Option Nat
  timestamp : Nat
deriving DecidableEq, Repr

/-- A portfolio-history snapshot row. -/
structure PortfolioHistory where
  id : Nat
  userId : Nat
  totalValue : ℚ
  timestamp : Nat
deriving DecidableEq, Repr

/-- A staking plan (static reference data; `apy` and description are never
read by the ledger logic and are omitted). -/
structure StakingPlan where
  id : Nat
  name : String
  lockPeriodDays : Nat
  minTokens : Nat
deriving DecidableEq, Repr

/-- An achievement definition. -/
structure Achievement where
  id : Nat
  requirement : String
  requirementValue : Nat
deriving DecidableEq, Repr

/-- A per-user achievement progress record. -/
structure UserAchievement where
  id : Nat
  userId : Nat
  achievementId : Nat
  completed : Bool
  progress : Int
  completedAt : Option Nat
deriving DecidableEq, Repr

/-- The whole `MemStorage` state.  `users` carries the ids of existing users
(the handlers only test user existence). -/
structure State where
  users : List Nat
  players : List Player
  holdings : List TokenHolding
  transactions : List Transaction
  history : List PortfolioHistory
  plans : List StakingPlan
  achievements : List Achievement
  userAchievements : List UserAchievement
  holdingIdCounter : Nat
  txIdCounter : Nat
  historyIdCounter : Nat
  uaIdCounter : Nat
deriving DecidableEq, Repr

/-! ## Entity-store accessors -/

/-- `MemStorage.getPlayer`. -/
def getPlayer (s : State) (id : Nat) : Option Player :=
  s.players.find? (fun p => p.id == id)

/-- First holding matching a (user, player) pair — `Array.prototype.find`
semantics used by `MemStorage.getTokenHolding`. -/
def findHolding : List TokenHolding → Nat → Nat → Option TokenHolding
  | [], _, _ => none
  | h :: t, u, p =>
    if h.userId = u ∧ h.playerId = p then some h else findHolding t u p

/-- `MemStorage.getTokenHolding`. -/
def getTokenHolding (s : State) (userId playerId : Nat) : Option TokenHolding :=
  findHolding s.holdings userId playerId

/-- Replace the holding stored under key `hid` (a `Map.set` keyed by id; the
update function receives the stored record, mirroring the in-place merge). -/
def replaceHolding (l : List TokenHolding) (hid : Nat)
    (f : TokenHolding → TokenHolding) : List TokenHolding :=
  l.map (fun x => if x.id = hid then f x else x)

/-- `MemStorage.updateTokenHolding`.  The source throws when the id is
absent; every call site passes the id of a holding just fetched, so the
absent case is unreachable and the model leaves the store unchanged there. -/
def updateTokenHolding (s : State) (hid : Nat)
    (f : TokenHolding → TokenHolding) : State :=
  { s with holdings := replaceHolding s.holdings hid f }

/-- `MemStorage.createTokenHolding` as called by the buy/swap handlers:
`isStaked` is passed as `false` and the staking fields default to null. -/
def createTokenHolding (s : State) (userId playerId amount : Nat)
    (purchasePrice : ℚ) : State :=
  { s with
    holdings := s.holdings ++
      [{ id := s.holdingIdCounter, userId := userId, playerId := playerId,
         amount := amount, purchasePrice := purchasePrice, isStaked := false,
         stakingPlan := none, stakingStart := none, stakingEnd := none }],
    holdingIdCounter := s.holdingIdCounter + 1 }

/-- `MemStorage.createTransaction` (timestamp set to `now`). -/
def createTransaction (s : State) (userId playerId : Nat) (type : String)
    (amount : Nat) (price : ℚ) (fromPlayerId : Option Nat) (now : Nat) : State :=
  { s with
    transactions := s.transactions ++
      [{ id := s.txIdCounter, userId := userId, playerId := playerId,
         type := type, amount := amount, price := price,
         fromPlayerId := fromPlayerId, timestamp := now }],
    txIdCounter := s.txIdCounter + 1 }

/-- `MemStorage.updatePortfolioHistory` (appends a snapshot row). -/
def updatePortfolioHistory (s : State) (userId : Nat) (totalValue : ℚ)
    (now : Nat) : State :=
  { s with
    history := s.history ++
      [{ id := s.historyIdCounter, userId := userId,
         totalValue := totalValue, timestamp := now }],
    historyIdCounter := s.historyIdCounter + 1 }

/-! ## Joins (`getUserTokens`, `getUserTransactions`)

Both joins throw when a referenced player is missing; they are modelled as
`Option`-valued.  `getUserTransactions` additionally sorts newest-first by
timestamp and attaches an optional `fromPlayer`; the ledger logic consumes
only lengths and filters of the result, for which the order and the extra
field are irrelevant, so the model keeps store order. -/

/-- Pair each holding with its player, failing if one is missing
(`MemStorage.getUserTokens` join step). -/
def joinHoldings (ps : List Player) : List TokenHolding →
    Option (List (TokenHolding × Player))
  | [] => some []
  | h :: t =>
    match ps.find? (fun pl => pl.id == h.playerId), joinHoldings ps t with
    | some pl, some rest => some ((h, pl) :: rest)
    | _, _ => none

/-- `MemStorage.getUserTokens`. -/
def getUserTokens (s : State) (userId : Nat) :
    Option (List (TokenHolding × Player)) :=
  joinHoldings s.players (s.holdings.filter (fun h => h.userId == userId))

/-- Pair each transaction with its player, failing if one is missing
(`MemStorage.getUserTransactions` join step). -/
def joinTransactions (ps : List Player) : List Transaction →
    Option (List (Transaction × Player))
  | [] => some []
  | t :: ts =>
    match ps.find? (fun pl => pl.id == t.playerId), joinTransactions ps ts with
    | some pl, some rest => some ((t, pl) :: rest)
    | _, _ => none

/-- `MemStorage.getUserTransactions`. -/
def getUserTransactions (s : State) (userId : Nat) :
    Option (List (Transaction × Player)) :=
  joinTransactions s.players (s.transactions.filter (fun t => t.userId == userId))

/-! ## Portfolio valuator -/

/-- The aggregate part of the `Portfolio` result (`tokens`, `transactions`
and `history` echo store contents and are not part of the aggregate). -/
structure Portfolio where
  totalValue : ℚ
  nbaTokens : Nat
  nflTokens : Nat
  stakedTokens : Nat
deriving DecidableEq, Repr

/-- One step of the `tokens.forEach` accumulation in
`MemStorage.getUserPortfolio`. -/
def pfStep (acc : Portfolio) (t : TokenHolding × Player) : Portfolio :=
  { totalValue := acc.totalValue + (t.1.amount : ℚ) * t.2.tokenPrice
    nbaTokens :=
      if t.2.sport = "NBA" then acc.nbaTokens + t.1.amount else acc.nbaTokens
    nflTokens :=
      if t.2.sport = "NBA" then acc.nflTokens
      else if t.2.sport = "NFL" then acc.nflTokens + t.1.amount
      else acc.nflTokens
    stakedTokens :=
      if t.1.isStaked then acc.stakedTokens + t.1.amount else acc.stakedTokens }

/-- `MemStorage.getUserPortfolio` (aggregate part).  It reads the token and
transaction joins (either may throw) and folds the aggregates. -/
def getUserPortfolio (s : State) (userId : Nat) : Option Portfolio := do
  let toks ← getUserTokens s userId
  let _ ← getUserTransactions s userId
  some (toks.foldl pfStep ⟨0, 0, 0, 0⟩)

/-! ## Trading engine (HTTP handlers in `routes.ts`)

Each handler returns `(err?, state)`: `err? = none` on a 2xx response, and
`some message` otherwise; the state component records every store mutation
performed before the response, success or not. -/

/-- `POST /api/transactions/buy`. -/
def buy (s : State) (now userId playerId amount : Nat) (price : ℚ) :
    Option String × State :=
  if userId = 0 ∨ playerId = 0 ∨ amount = 0 ∨ price = 0 then
    (some "Missing required fields", s)
  else
    match getPlayer s playerId with
    | none => (some "Player not found", s)
    | some _ =>
      if userId ∈ s.users then
        let s1 :=
          match getTokenHolding s userId playerId with
          | some h =>
            updateTokenHolding s h.id (fun x =>
              { x with amount := h.amount + amount, purchasePrice := price })
          | none => createTokenHolding s userId playerId amount price
        let s2 := createTransaction s1 userId playerId "buy" amount price none now
        match getUserPortfolio s2 userId with
        | some pf => (none, updatePortfolioHistory s2 userId pf.totalValue now)
        | none => (some "Failed to buy token", s2)
      else (some "User not found", s)

/-- `POST /api/transactions/sell`. -/
def sell (s : State) (now userId playerId amount : Nat) (price : ℚ) :
    Option String × State :=
  if userId = 0 ∨ playerId = 0 ∨ amount = 0 ∨ price = 0 then
    (some "Missing required fields", s)
  else
    match getTokenHolding s userId playerId with
    | none => (some "You do not own this token", s)
    | some h =>
      if h.amount < amount then (some "Not enough tokens to sell", s)
      else if h.isStaked then (some "Cannot sell staked tokens", s)
      else
        let s1 := updateTokenHolding s h.id (fun x =>
          { x with amount := h.amount - amount })
        let s2 := createTransaction s1 userId playerId "sell" amount price none now
        match getUserPortfolio s2 userId with
        | some pf => (none, updatePortfolioHistory s2 userId pf.totalValue now)
        | none => (some "Failed to sell token", s2)

/-- `POST /api/transactions/swap`.  `toAmount` is
`Math.floor(fromPrice * amount / toPrice)`; the source guards
`toAmount <= 0` before any mutation. -/
def swap (s : State) (now userId fromPlayerId toPlayerId amount : Nat) :
    Option String × State :=
  if userId = 0 ∨ fromPlayerId = 0 ∨ toPlayerId = 0 ∨ amount = 0 then
    (some "Missing required fields", s)
  else
    match getTokenHolding s userId fromPlayerId with
    | none => (some "You do not own the source token", s)
    | some fh =>
      if fh.amount < amount then (some "Not enough tokens to swap", s)
      else if fh.isStaked then (some "Cannot swap staked tokens", s)
      else
        match getPlayer s fromPlayerId, getPlayer s toPlayerId with
        | some fp, some tp =>
          let fromValue : ℚ := fp.tokenPrice * (amount : ℚ)
          let toAmount : Int := Rat.floor (fromValue / tp.tokenPrice)
          if toAmount ≤ 0 then (some "Swap amount too small", s)
          else
            let s1 := updateTokenHolding s fh.id (fun x =>
              { x with amount := fh.amount - amount })
            let s2 :=
              match getTokenHolding s1 userId toPlayerId with
              | some th =>
                updateTokenHolding s1 th.id (fun x =>
                  { x with amount := th.amount + toAmount.toNat })
              | none =>
                createTokenHolding s1 userId toPlayerId toAmount.toNat tp.tokenPrice
            let s3 := createTransaction s2 userId toPlayerId "swap"
              toAmount.toNat tp.tokenPrice (some fromPlayerId) now
            match getUserPortfolio s3 userId with
            | some pf => (none, updatePortfolioHistory s3 userId pf.totalValue now)
            | none => (some "Failed to swap tokens", s3)
        | _, _ => (some "Player not found", s)

/-! ## Staking engine (`MemStorage.stakeTokens` / `unstakeTokens`)

Both storage methods perform all their checks before the single store
mutation, so `Except String State` models them exactly. -/

/-- `MemStorage.stakeTokens`. -/
def stakeTokens (s : State) (now userId playerId amount planId : Nat) :
    Except String State :=
  match getTokenHolding s userId playerId with
  | none => Except.error "Token holding not found"
  | some h =>
    match s.plans.find? (fun pl => pl.id == planId) with
    | none => Except.error "Staking plan not found"
    | some plan =>
      if h.amount < amount then Except.error "Not enough tokens to stake"
      else if amount < plan.minTokens then
        Except.error "Minimum tokens required for this plan"
      else
        Except.ok (updateTokenHolding s h.id (fun x =>
          { x with isStaked := true, stakingPlan := some plan.name,
                   stakingStart := some now,
                   stakingEnd := some (now + plan.lockPeriodDays) }))

/-- `MemStorage.unstakeTokens`.  The early-unstake guard is
`holding.stakingEnd && now < holding.stakingEnd`: a null `stakingEnd` is
falsy and skips the guard. -/
def unstakeTokens (s : State) (now userId playerId : Nat) :
    Except String State :=
  match getTokenHolding s userId playerId with
  | none => Except.error "Token holding not found"
  | some h =>
    if h.isStaked = false then
      Except.error "These tokens are not currently staked"
    else
      let cleared := updateTokenHolding s h.id (fun x =>
        { x with isStaked := false, stakingPlan := none,
                 stakingStart := none, stakingEnd := none })
      match h.stakingEnd with
      | some e =>
        if now < e then Except.error "Staking period is not over yet"
        else Except.ok cleared
      | none => Except.ok cleared

/-! ## Achievement tracker -/

/-- First user-achievement record for a (user, achievement) pair
(`Array.prototype.find` semantics). -/
def findUserAchievement : List UserAchievement → Nat → Nat → Option UserAchievement
  | [], _, _ => none
  | ua :: t, u, a =>
    if ua.userId = u ∧ ua.achievementId = a then some ua
    else findUserAchievement t u a

/-- `MemStorage.getAchievement`. -/
def getAchievement (s : State) (id : Nat) : Option Achievement :=
  s.achievements.find? (fun a => a.id == id)

/-- Replace the user-achievement record stored under key `uid`. -/
def replaceUserAchievement (l : List UserAchievement) (uid : Nat)
    (f : UserAchievement → UserAchievement) : List UserAchievement :=
  l.map (fun x => if x.id = uid then f x else x)

/-- `MemStorage.updateUserAchievementProgress`: creates a missing record with
the given progress; otherwise applies the new progress only when it strictly
exceeds the stored one, marking completion the first time the requirement
value is reached. -/
def updateUserAchievementProgress (s : State) (userId achievementId : Nat)
    (progress : Int) (now : Nat) : Except String State :=
  match findUserAchievement s.userAchievements userId achievementId with
  | none =>
    match getAchievement s achievementId with
    | none => Except.error "Achievement not found"
    | some a =>
      let comp : Bool := decide ((a.requirementValue : Int) ≤ progress)
      Except.ok { s with
        userAchievements := s.userAchievements ++
          [{ id := s.uaIdCounter, userId := userId,
             achievementId := achievementId, completed := comp,
             progress := progress,
             completedAt := if comp then some now else none }],
        uaIdCounter := s.uaIdCounter + 1 }
  | some ua =>
    match getAchievement s achievementId with
    | none => Except.error "Achievement not found"
    | some a =>
      if ua.progress < progress then
        Except.ok { s with
          userAchievements := replaceUserAchievement s.userAchievements ua.id
            (fun x =>
              if x.completed = false ∧ (a.requirementValue : Int) ≤ progress then
                { x with progress := progress, completed := true,
                         completedAt := some now }
              else { x with progress := progress }) }
      else Except.ok s

/-- The `switch (achievement.requirement)` of
`MemStorage.checkAndUpdateAchievements`; `none` is the `default: continue`
branch. -/
def computeProgress (a : Achievement) (txs : List (Transaction × Player))
    (toks : List (TokenHolding × Player)) (totalValue : ℚ) : Option Int :=
  if a.requirement = "total_transactions" then some (txs.length : Int)
  else if a.requirement = "total_buys" then
    some ((txs.filter (fun t => t.1.type == "buy")).length : Int)
  else if a.requirement = "total_sells" then
    some ((txs.filter (fun t => t.1.type == "sell")).length : Int)
  else if a.requirement = "total_swaps" then
    some ((txs.filter (fun t => t.1.type == "swap")).length : Int)
  else if a.requirement = "total_value" then some (Rat.floor totalValue)
  else if a.requirement = "different_players" then
    some (((toks.map (fun t => t.1.playerId)).dedup).length : Int)
  else if a.requirement = "nba_players" then
    some ((toks.filter (fun t => t.2.sport == "NBA")).length : Int)
  else if a.requirement = "nfl_players" then
    some ((toks.filter (fun t => t.2.sport == "NFL")).length : Int)
  else if a.requirement = "staked_tokens" then
    some ((toks.filter (fun t => t.1.isStaked)).length : Int)
  else none

/-- The update loop of `checkAndUpdateAchievements`: progress is computed
from the joins and portfolio snapshotted before the loop; the in-loop
`updateUserAchievementProgress` look-up of the achievement cannot fail (the
id iterated comes from the achievements store), so an error aborts. -/
def runAchievementChecks (txs : List (Transaction × Player))
    (toks : List (TokenHolding × Player)) (totalValue : ℚ) (userId now : Nat) :
    List Achievement → State → Option State
  | [], s => some s
  | a :: rest, s =>
    match computeProgress a txs toks totalValue with
    | none => runAchievementChecks txs toks totalValue userId now rest s
    | some p =>
      match updateUserAchievementProgress s userId a.id p now with
      | Except.error _ => none
      | Except.ok s1 => runAchievementChecks txs toks totalValue userId now rest s1

/-- `MemStorage.checkAndUpdateAchievements`. -/
def checkAndUpdateAchievements (s : State) (userId now : Nat) : Option State := do
  let txs ← getUserTransactions s userId
  let toks ← getUserTokens s userId
  let pf ← getUserPortfolio s userId
  runAchievementChecks txs toks pf.totalValue userId now s.achievements s

/-- A sequence of `POST /api/achievements/:userId/check` calls, each a
(userId, now) pair. -/
def runChecks : State → List (Nat × Nat) → Option State
  | s, [] => some s
  | s, (u, t) :: rest =>
    match checkAndUpdateAchievements s u t with
    | none => none
    | some s1 => runChecks s1 rest

/-- The stored progress of a (user, achievement) pair. -/
def storedProgress (s : State) (userId achievementId : Nat) : Option Int :=
  (findUserAchievement s.userAchievements userId achievementId).map
    (fun ua => ua.progress)

/-- Store well-formedness: the list models of the id-keyed `Map`s hold at
most one entry per id, and id counters are fresh.  Every store reachable
from the constructor satisfies this (`Map` keys are unique and ids are
allocated from strictly increasing counters). -/
def WF (s : State) : Prop :=
  ((s.userAchievements.map (fun ua => ua.id)).Nodup ∧
    ∀ ua ∈ s.userAchievements, ua.id < s.uaIdCounter) ∧
  ((s.holdings.map (fun h => h.id)).Nodup ∧
    ∀ h ∈ s.holdings, h.id < s.holdingIdCounter)

instance (s : State) : Decidable (WF s) := by
  unfold WF; infer_instance

/-- Referential integrity of one user's rows: every holding and transaction
of the user names an existing player.  Every state reachable through the API
satisfies this: players are never deleted and holdings/transactions are only
created after the player was fetched. -/
def refsOK (s : State) (u : Nat) : Prop :=
  (∀ h ∈ s.holdings, h.userId = u → (getPlayer s h.playerId).isSome) ∧
  (∀ t ∈ s.transactions, t.userId = u → (getPlayer s t.playerId).isSome)

instance (s : State) (u : Nat) : Decidable (refsOK s u) := by
  unfold refsOK; infer_instance

/- The arithmetic of `Rat` is `@[irreducible]` for elaboration-performance
reasons only; concrete witness states below are evaluated with `decide`,
which needs the elaborator to reduce it like the kernel does. -/
attribute [local semireducible] Rat.mul Rat.inv Rat.add Rat.sub Rat.ofScientific

/-! ## Toolkit lemmas -/

lemma findHolding_map (l : List TokenHolding) (g : TokenHolding → TokenHolding)
    (hg : ∀ x, (g x).userId = x.userId ∧ (g x).playerId = x.playerId) (u p : Nat) :
    findHolding (l.map g) u p = (findHolding l u p).map g := by
  induction l with
  | nil => rfl
  | cons h t ih =>
    simp only [List.map_cons, findHolding]
    by_cases hm : h.userId = u ∧ h.playerId = p
    · rw [if_pos hm, if_pos (by rw [(hg h).1, (hg h).2]; exact hm)]
      rfl
    · rw [if_neg hm, if_neg (by rw [(hg h).1, (hg h).2]; exact hm)]
      exact ih

lemma findHolding_append_some {l1 : List TokenHolding} {u p : Nat}
    {h : TokenHolding} (l2 : List TokenHolding)
    (hf : findHolding l1 u p = some h) :
    findHolding (l1 ++ l2) u p = some h := by
  induction l1 with
  | nil => simp [findHolding] at hf
  | cons x t ih =>
    simp only [findHolding, List.cons_append] at hf ⊢
    by_cases hm : x.userId = u ∧ x.playerId = p
    · rw [if_pos hm] at hf ⊢; exact hf
    · rw [if_neg hm] at hf ⊢; exact ih hf

lemma findHolding_append_none {l1 : List TokenHolding} {u p : Nat}
    (l2 : List TokenHolding) (hf : findHolding l1 u p = none) :
    findHolding (l1 ++ l2) u p = findHolding l2 u p := by
  induction l1 with
  | nil => rfl
  | cons x t ih =>
    simp only [findHolding, List.cons_append] at hf ⊢
    by_cases hm : x.userId = u ∧ x.playerId = p
    · rw [if_pos hm] at hf; exact absurd hf (by simp)
    · rw [if_neg hm] at hf ⊢; exact ih hf

lemma findHolding_mem {l : List TokenHolding} {u p : Nat} {h : TokenHolding}
    (hf : findHolding l u p = some h) : h ∈ l := by
  induction l with
  | nil => simp [findHolding] at hf
  | cons x t ih =>
    simp only [findHolding] at hf
    by_cases hm : x.userId = u ∧ x.playerId = p
    · rw [if_pos hm] at hf
      simp only [Option.some.injEq] at hf
      exact hf ▸ List.mem_cons_self x t
    · rw [if_neg hm] at hf
      exact List.mem_cons_of_mem x (ih hf)

lemma findHolding_keys {l : List TokenHolding} {u p : Nat} {h : TokenHolding}
    (hf : findHolding l u p = some h) : h.userId = u ∧ h.playerId = p := by
  induction l with
  | nil => simp [findHolding] at hf
  | cons x t ih =>
    simp only [findHolding] at hf
    by_cases hm : x.userId = u ∧ x.playerId = p
    · rw [if_pos hm] at hf
      simp only [Option.some.injEq] at hf
      exact hf ▸ hm
    · rw [if_neg hm] at hf
      exact ih hf

lemma getTokenHolding_update (s : State) (hid : Nat)
    (f : TokenHolding → TokenHolding)
    (hf : ∀ x, (f x).userId = x.userId ∧ (f x).playerId = x.playerId)
    (u p : Nat) :
    getTokenHolding (updateTokenHolding s hid f) u p =
      (getTokenHolding s u p).map (fun x => if x.id = hid then f x else x) := by
  unfold getTokenHolding updateTokenHolding replaceHolding
  exact findHolding_map _ _
    (fun x => by by_cases hx : x.id = hid <;> simp [hx, hf x]) u p

lemma joinHoldings_isSome (ps : List Player) (l : List TokenHolding) :
    (joinHoldings ps l).isSome ↔
      ∀ h ∈ l, (ps.find? (fun pl => pl.id == h.playerId)).isSome := by
  induction l with
  | nil => simp [joinHoldings]
  | cons h t ih =>
    constructor
    · intro hs
      simp only [joinHoldings] at hs
      cases hpl : ps.find? (fun pl => pl.id == h.playerId) with
      | none => rw [hpl] at hs; simp at hs
      | some pl =>
        cases hj : joinHoldings ps t with
        | none => rw [hpl, hj] at hs; simp at hs
        | some rest =>
          intro x hx
          rcases List.mem_cons.1 hx with rfl | hxt
          · simp [hpl]
          · exact ih.1 (by simp [hj]) x hxt
    · intro hall
      have h1 := hall h (List.mem_cons_self h t)
      have h2 : (joinHoldings ps t).isSome :=
        ih.2 (fun x hx => hall x (List.mem_cons_of_mem h hx))
      rcases Option.isSome_iff_exists.1 h1 with ⟨pl, hpl⟩
      rcases Option.isSome_iff_exists.1 h2 with ⟨rest, hj⟩
      simp [joinHoldings, hpl, hj]

lemma joinTransactions_isSome (ps : List Player) (l : List Transaction) :
    (joinTransactions ps l).isSome ↔
      ∀ t ∈ l, (ps.find? (fun pl => pl.id == t.playerId)).isSome := by
  induction l with
  | nil => simp [joinTransactions]
  | cons h t ih =>
    constructor
    · intro hs
      simp only [joinTransactions] at hs
      cases hpl : ps.find? (fun pl => pl.id == h.playerId) with
      | none => rw [hpl] at hs; simp at hs
      | some pl =>
        cases hj : joinTransactions ps t with
        | none => rw [hpl, hj] at hs; simp at hs
        | some rest =>
          intro x hx
          rcases List.mem_cons.1 hx with rfl | hxt
          · simp [hpl]
          · exact ih.1 (by simp [hj]) x hxt
    · intro hall
      have h1 := hall h (List.mem_cons_self h t)
      have h2 : (joinTransactions ps t).isSome :=
        ih.2 (fun x hx => hall x (List.mem_cons_of_mem h hx))
      rcases Option.isSome_iff_exists.1 h1 with ⟨pl, hpl⟩
      rcases Option.isSome_iff_exists.1 h2 with ⟨rest, hj⟩
      simp [joinTransactions, hpl, hj]

lemma getUserTokens_isSome (s : State) (u : Nat) :
    (getUserTokens s u).isSome ↔
      ∀ h ∈ s.holdings, h.userId = u → (getPlayer s h.playerId).isSome := by
  unfold getUserTokens getPlayer
  rw [joinHoldings_isSome]
  constructor
  · intro hall h hm hu
    exact hall h (List.mem_filter.2 ⟨hm, by simpa using hu⟩)
  · intro hall h hm
    rcases List.mem_filter.1 hm with ⟨hm1, hm2⟩
    exact hall h hm1 (by simpa using hm2)

lemma getUserTransactions_isSome (s : State) (u : Nat) :
    (getUserTransactions s u).isSome ↔
      ∀ t ∈ s.transactions, t.userId = u → (getPlayer s t.playerId).isSome := by
  unfold getUserTransactions getPlayer
  rw [joinTransactions_isSome]
  constructor
  · intro hall t hm hu
    exact hall t (List.mem_filter.2 ⟨hm, by simpa using hu⟩)
  · intro hall t hm
    rcases List.mem_filter.1 hm with ⟨hm1, hm2⟩
    exact hall t hm1 (by simpa using hm2)

lemma getUserPortfolio_isSome (s : State) (u : Nat) :
    (getUserPortfolio s u).isSome ↔
      (getUserTokens s u).isSome ∧ (getUserTransactions s u).isSome := by
  unfold getUserPortfolio
  cases htk : getUserTokens s u with
  | none => simp [htk, Option.bind]
  | some toks =>
    cases htx : getUserTransactions s u with
    | none => simp [htk, htx, Option.bind]
    | some txs => simp [htk, htx, Option.bind]

lemma getUserPortfolio_of_refsOK (s : State) (u : Nat) (h : refsOK s u) :
    (getUserPortfolio s u).isSome := by
  rw [getUserPortfolio_isSome, getUserTokens_isSome, getUserTransactions_isSome]
  exact ⟨h.1, h.2⟩

lemma refsOK_updateTokenHolding (s : State) (u hid : Nat)
    (f : TokenHolding → TokenHolding)
    (hf : ∀ x, (f x).userId = x.userId ∧ (f x).playerId = x.playerId)
    (h : refsOK s u) : refsOK (updateTokenHolding s hid f) u := by
  obtain ⟨h1, h2⟩ := h
  constructor
  · intro x hx hu
    simp only [updateTokenHolding, replaceHolding, List.mem_map] at hx
    obtain ⟨y, hy, rfl⟩ := hx
    by_cases hyid : y.id = hid
    · rw [if_pos hyid] at hu ⊢
      rw [(hf y).2]
      rw [(hf y).1] at hu
      exact h1 y hy hu
    · rw [if_neg hyid] at hu ⊢
      exact h1 y hy hu
  · intro t ht hu
    exact h2 t ht hu

lemma refsOK_createTransaction (s : State) (u u0 pid : Nat) (ty : String)
    (a : Nat) (pr : ℚ) (fp : Option Nat) (now : Nat)
    (hp : (getPlayer s pid).isSome) (h : refsOK s u) :
    refsOK (createTransaction s u0 pid ty a pr fp now) u := by
  obtain ⟨h1, h2⟩ := h
  refine ⟨fun x hx hu => h1 x hx hu, fun t ht hu => ?_⟩
  simp only [createTransaction, List.mem_append, List.mem_singleton] at ht
  rcases ht with ht | rfl
  · exact h2 t ht hu
  · exact hp

lemma refsOK_createTokenHolding (s : State) (u u0 pid a : Nat) (pr : ℚ)
    (hp : (getPlayer s pid).isSome) (h : refsOK s u) :
    refsOK (createTokenHolding s u0 pid a pr) u := by
  obtain ⟨h1, h2⟩ := h
  refine ⟨fun x hx hu => ?_, fun t ht hu => h2 t ht hu⟩
  simp only [createTokenHolding, List.mem_append, List.mem_singleton] at hx
  rcases hx with hx | rfl
  · exact h1 x hx hu
  · exact hp

lemma refsOK_updatePortfolioHistory (s : State) (u u0 : Nat) (tv : ℚ)
    (now : Nat) (h : refsOK s u) :
    refsOK (updatePortfolioHistory s u0 tv now) u := h

/-! ## Concrete stores used by witnesses -/

/-- An unstaked holding of ten player-1 tokens for user 1. -/
def baseHolding : TokenHolding := ⟨1, 1, 1, 10, 2, false, none, none, none⟩

/-- The same holding, staked on the rookie plan until tick 30. -/
def stakedHolding : TokenHolding :=
  ⟨1, 1, 1, 10, 2, true, some "Rookie Stake", some 0, some 30⟩

/-- The rookie staking plan (30-day lock, 2-token minimum). -/
def rookiePlan : StakingPlan := ⟨1, "Rookie Stake", 30, 2⟩

/-- A small store: one user, an NBA and an NFL player, one unstaked holding,
the rookie plan. -/
def baseState : State :=
  { users := [1], players := [⟨1, "NBA", 2⟩, ⟨2, "NFL", 4⟩],
    holdings := [baseHolding], transactions := [], history := [],
    plans := [rookiePlan], achievements := [], userAchievements := [],
    holdingIdCounter := 2, txIdCounter := 1, historyIdCounter := 1,
    uaIdCounter := 1 }

/-- `baseState` with the holding staked until tick 30. -/
def stakedState : State := { baseState with holdings := [stakedHolding] }

/-! ## C4: stake preconditions and effect -/

/-- C4: `stakeTokens(userId, playerId, amount, planId)` succeeds exactly when
the holding and the plan exist, `amount <= holding.amount` and
`amount >= plan.minTokens`; on success it sets `isStaked`, the plan name and
the lock window `stakingStart = now`, `stakingEnd = now + lockPeriodDays` on
the entire holding, leaving `holding.amount` unchanged regardless of the
requested sub-amount (the updated record keeps `amount = h.amount`). -/
theorem stakeTokens_spec (s : State) (now userId playerId amount planId : Nat) :
    ((∃ s1, stakeTokens s now userId playerId amount planId = Except.ok s1) ↔
      ∃ h plan, getTokenHolding s userId playerId = some h ∧
        s.plans.find? (fun pl => pl.id == planId) = some plan ∧
        amount ≤ h.amount ∧ plan.minTokens ≤ amount) ∧
    (∀ h plan, getTokenHolding s userId playerId = some h →
      s.plans.find? (fun pl => pl.id == planId) = some plan →
      amount ≤ h.amount → plan.minTokens ≤ amount →
      ∃ s1, stakeTokens s now userId playerId amount planId = Except.ok s1 ∧
        getTokenHolding s1 userId playerId = some
          { h with isStaked := true
                   stakingPlan := some plan.name
                   stakingStart := some now
                   stakingEnd := some (now + plan.lockPeriodDays) }) := by
  constructor
  · constructor
    · rintro ⟨s1, hs1⟩
      unfold stakeTokens at hs1
      cases hh : getTokenHolding s userId playerId with
      | none => rw [hh] at hs1; exact absurd hs1 (by simp)
      | some h =>
        rw [hh] at hs1
        dsimp only at hs1
        cases hp : s.plans.find? (fun pl => pl.id == planId) with
        | none => rw [hp] at hs1; exact absurd hs1 (by simp)
        | some plan =>
          rw [hp] at hs1
          dsimp only at hs1
          by_cases h1 : h.amount < amount
          · rw [if_pos h1] at hs1; exact absurd hs1 (by simp)
          · rw [if_neg h1] at hs1
            by_cases h2 : amount < plan.minTokens
            · rw [if_pos h2] at hs1; exact absurd hs1 (by simp)
            · exact ⟨h, plan, rfl, rfl, Nat.le_of_not_lt h1, Nat.le_of_not_lt h2⟩
    · rintro ⟨h, plan, hh, hp, h1, h2⟩
      refine ⟨updateTokenHolding s h.id (fun x =>
        { x with isStaked := true
                 stakingPlan := some plan.name
                 stakingStart := some now
                 stakingEnd := some (now + plan.lockPeriodDays) }), ?_⟩
      unfold stakeTokens
      rw [hh]
      dsimp only
      rw [hp]
      dsimp only
      rw [if_neg (Nat.not_lt.2 h1), if_neg (Nat.not_lt.2 h2)]
  · intro h plan hh hp h1 h2
    have heq : stakeTokens s now userId playerId amount planId =
        Except.ok (updateTokenHolding s h.id (fun x =>
          { x with isStaked := true
                   stakingPlan := some plan.name
                   stakingStart := some now
                   stakingEnd := some (now + plan.lockPeriodDays) })) := by
      unfold stakeTokens
      rw [hh]
      dsimp only
      rw [hp]
      dsimp only
      rw [if_neg (Nat.not_lt.2 h1), if_neg (Nat.not_lt.2 h2)]
    refine ⟨_, heq, ?_⟩
    rw [getTokenHolding_update s h.id (fun x =>
      { x with isStaked := true
               stakingPlan := some plan.name
               stakingStart := some now
               stakingEnd := some (now + plan.lockPeriodDays) })
      (fun x => ⟨rfl, rfl⟩), hh]
    simp

/-- C4 witness: staking 5 of the 10 held tokens on the rookie plan at tick 7
succeeds and flags the whole holding, lock window `[7, 37]`, amount still 10. -/
theorem stakeTokens_spec_witness :
    ∃ s1, stakeTokens baseState 7 1 1 5 1 = Except.ok s1 ∧
      getTokenHolding s1 1 1 = some
        { baseHolding with isStaked := true
                           stakingPlan := some rookiePlan.name
                           stakingStart := some 7
                           stakingEnd := some (7 + rookiePlan.lockPeriodDays) } :=
  (stakeTokens_spec baseState 7 1 1 5 1).2 baseHolding rookiePlan
    (by decide) (by decide) (by decide) (by decide)

/-! ## C5: unstake gating on the lock window -/

/-- C5: `unstakeTokens(userId, playerId)` fails when the holding is missing,
not staked, or `now` is strictly before `stakingEnd` (the source throws
before any store mutation, leaving the holding unchanged); at or after
`stakingEnd` it succeeds and clears `isStaked`, `stakingPlan`,
`stakingStart` and `stakingEnd`. -/
theorem unstakeTokens_spec (s : State) (now userId playerId : Nat) :
    (getTokenHolding s userId playerId = none →
      unstakeTokens s now userId playerId =
        Except.error "Token holding not found") ∧
    (∀ h, getTokenHolding s userId playerId = some h → h.isStaked = false →
      unstakeTokens s now userId playerId =
        Except.error "These tokens are not currently staked") ∧
    (∀ h e, getTokenHolding s userId playerId = some h → h.isStaked = true →
      h.stakingEnd = some e → now < e →
      unstakeTokens s now userId playerId =
        Except.error "Staking period is not over yet") ∧
    (∀ h e, getTokenHolding s userId playerId = some h → h.isStaked = true →
      h.stakingEnd = some e → e ≤ now →
      ∃ s1, unstakeTokens s now userId playerId = Except.ok s1 ∧
        getTokenHolding s1 userId playerId = some
          { h with isStaked := false
                   stakingPlan := none
                   stakingStart := none
                   stakingEnd := none }) := by
  refine ⟨fun hh => ?_, fun h hh hst => ?_, fun h e hh hst he hlt => ?_,
    fun h e hh hst he hle => ?_⟩
  · unfold unstakeTokens; rw [hh]
  · unfold unstakeTokens
    rw [hh]
    dsimp only
    rw [if_pos hst]
  · unfold unstakeTokens
    rw [hh]
    dsimp only
    rw [if_neg (by rw [hst]; simp)]
    rw [he]
    dsimp only
    rw [if_pos hlt]
  · have heq : unstakeTokens s now userId playerId =
        Except.ok (updateTokenHolding s h.id (fun x =>
          { x with isStaked := false
                   stakingPlan := none
                   stakingStart := none
                   stakingEnd := none })) := by
      unfold unstakeTokens
      rw [hh]
      dsimp only
      rw [if_neg (by rw [hst]; simp)]
      rw [he]
      dsimp only
      rw [if_neg (Nat.not_lt.2 hle)]
    refine ⟨_, heq, ?_⟩
    rw [getTokenHolding_update s h.id (fun x =>
      { x with isStaked := false
               stakingPlan := none
               stakingStart := none
               stakingEnd := none })
      (fun x => ⟨rfl, rfl⟩), hh]
    simp

/-- C5 witness: at tick 30 (= `stakingEnd`) unstaking succeeds and clears the
staking fields; at tick 29 it is rejected. -/
theorem unstakeTokens_spec_witness :
    (unstakeTokens stakedState 29 1 1 =
      Except.error "Staking period is not over yet") ∧
    ∃ s1, unstakeTokens stakedState 30 1 1 = Except.ok s1 ∧
      getTokenHolding s1 1 1 = some
        { stakedHolding with isStaked := false
                             stakingPlan := none
                             stakingStart := none
                             stakingEnd := none } :=
  ⟨(unstakeTokens_spec stakedState 29 1 1).2.2.1 stakedHolding 30
      (by decide) (by decide) (by decide) (by decide),
    (unstakeTokens_spec stakedState 30 1 1).2.2.2 stakedHolding 30
      (by decide) (by decide) (by decide) (by decide)⟩

/-! ## C9: staking an already-staked holding resets the lock -/

/-- C9: `stakeTokens` never checks `isStaked`: an already-staked holding that
meets the amount and plan preconditions is re-staked, overwriting
`stakingPlan`, `stakingStart` and `stakingEnd` (resetting the lock window);
and an error is raised only for a missing holding, a missing plan, an amount
above `holding.amount`, or an amount below `plan.minTokens`. -/
theorem stakeTokens_ignores_staked_flag (s : State)
    (now userId playerId amount planId : Nat) :
    (∀ h plan, getTokenHolding s userId playerId = some h → h.isStaked = true →
      s.plans.find? (fun pl => pl.id == planId) = some plan →
      amount ≤ h.amount → plan.minTokens ≤ amount →
      ∃ s1, stakeTokens s now userId playerId amount planId = Except.ok s1 ∧
        getTokenHolding s1 userId playerId = some
          { h with isStaked := true
                   stakingPlan := some plan.name
                   stakingStart := some now
                   stakingEnd := some (now + plan.lockPeriodDays) }) ∧
    (∀ msg, stakeTokens s now userId playerId amount planId =
        Except.error msg →
      getTokenHolding s userId playerId = none ∨
      s.plans.find? (fun pl => pl.id == planId) = none ∨
      (∃ h, getTokenHolding s userId playerId = some h ∧ h.amount < amount) ∨
      (∃ h plan, getTokenHolding s userId playerId = some h ∧
        s.plans.find? (fun pl => pl.id == planId) = some plan ∧
        amount < plan.minTokens)) := by
  constructor
  · intro h plan hh _ hp h1 h2
    have heq : stakeTokens s now userId playerId amount planId =
        Except.ok (updateTokenHolding s h.id (fun x =>
          { x with isStaked := true
                   stakingPlan := some plan.name
                   stakingStart := some now
                   stakingEnd := some (now + plan.lockPeriodDays) })) := by
      unfold stakeTokens
      rw [hh]
      dsimp only
      rw [hp]
      dsimp only
      rw [if_neg (Nat.not_lt.2 h1), if_neg (Nat.not_lt.2 h2)]
    refine ⟨_, heq, ?_⟩
    rw [getTokenHolding_update s h.id (fun x =>
      { x with isStaked := true
               stakingPlan := some plan.name
               stakingStart := some now
               stakingEnd := some (now + plan.lockPeriodDays) })
      (fun x => ⟨rfl, rfl⟩), hh]
    simp
  · intro msg hmsg
    unfold stakeTokens at hmsg
    cases hh : getTokenHolding s userId playerId with
    | none => exact Or.inl rfl
    | some h =>
      rw [hh] at hmsg
      dsimp only at hmsg
      cases hp : s.plans.find? (fun pl => pl.id == planId) with
      | none => exact Or.inr (Or.inl rfl)
      | some plan =>
        rw [hp] at hmsg
        dsimp only at hmsg
        by_cases h1 : h.amount < amount
        · exact Or.inr (Or.inr (Or.inl ⟨h, rfl, h1⟩))
        · rw [if_neg h1] at hmsg
          by_cases h2 : amount < plan.minTokens
          · exact Or.inr (Or.inr (Or.inr ⟨h, plan, rfl, rfl, h2⟩))
          · rw [if_neg h2] at hmsg
            exact absurd hmsg (by simp)

/-- C9 witness: the holding staked until tick 30 is re-staked at tick 5 with
a fresh lock window `[5, 35]`. -/
theorem stakeTokens_ignores_staked_flag_witness :
    ∃ s1, stakeTokens stakedState 5 1 1 10 1 = Except.ok s1 ∧
      getTokenHolding s1 1 1 = some
        { stakedHolding with isStaked := true
                             stakingPlan := some rookiePlan.name
                             stakingStart := some 5
                             stakingEnd := some (5 + rookiePlan.lockPeriodDays) } :=
  (stakeTokens_ignores_staked_flag stakedState 5 1 1 10 1).1 stakedHolding
    rookiePlan (by decide) (by decide) (by decide) (by decide) (by decide)

/-! ## C1: swap converts value at current prices -/

/-- `Rat.floor` agrees with the floor of the `FloorRing` instance. -/
lemma ratFloor_eq_intFloor (q : ℚ) : Rat.floor q = ⌊q⌋ :=
  (Rat.floor_def' q).trans Rat.floor_def.symm

@[simp] lemma getTokenHolding_createTransaction (s : State) (u0 p0 : Nat)
    (ty : String) (a : Nat) (pr : ℚ) (fpid : Option Nat) (now u p : Nat) :
    getTokenHolding (createTransaction s u0 p0 ty a pr fpid now) u p =
      getTokenHolding s u p := rfl

@[simp] lemma getTokenHolding_updatePortfolioHistory (s : State) (u0 : Nat)
    (tv : ℚ) (now u p : Nat) :
    getTokenHolding (updatePortfolioHistory s u0 tv now) u p =
      getTokenHolding s u p := rfl

lemma getTokenHolding_createTokenHolding_self (s : State) (u p a : Nat)
    (pr : ℚ) (h : getTokenHolding s u p = none) :
    getTokenHolding (createTokenHolding s u p a pr) u p =
      some ⟨s.holdingIdCounter, u, p, a, pr, false, none, none, none⟩ := by
  unfold getTokenHolding at h ⊢
  unfold createTokenHolding
  rw [findHolding_append_none _ h]
  simp [findHolding]

/-- C1: under an existing, non-staked source holding with sufficient amount
and both players present, the destination is credited exactly
`floor(amount * fromPrice / toPrice)` tokens; when that floor is not
positive the swap is rejected before any store mutation. -/
theorem swap_credits_floor (s : State)
    (now userId fromPlayerId toPlayerId amount : Nat)
    (fh : TokenHolding) (fp tp : Player)
    (hu : userId ≠ 0) (hf0 : fromPlayerId ≠ 0) (ht0 : toPlayerId ≠ 0)
    (ha : amount ≠ 0) (hne : fromPlayerId ≠ toPlayerId)
    (hh : getTokenHolding s userId fromPlayerId = some fh)
    (hstk : fh.isStaked = false) (hamt : amount ≤ fh.amount)
    (hfp : getPlayer s fromPlayerId = some fp)
    (htp : getPlayer s toPlayerId = some tp)
    (hnodup : (s.holdings.map (fun h => h.id)).Nodup) :
    (⌊(amount : ℚ) * fp.tokenPrice / tp.tokenPrice⌋ ≤ 0 →
      swap s now userId fromPlayerId toPlayerId amount =
        (some "Swap amount too small", s)) ∧
    (0 < ⌊(amount : ℚ) * fp.tokenPrice / tp.tokenPrice⌋ →
      ∃ th1, getTokenHolding
          (swap s now userId fromPlayerId toPlayerId amount).2
          userId toPlayerId = some th1 ∧
        (th1.amount : Int) =
          ((getTokenHolding s userId toPlayerId).map
            (fun th => (th.amount : Int))).getD 0 +
          ⌊(amount : ℚ) * fp.tokenPrice / tp.tokenPrice⌋) := by
  have hbridge : Rat.floor (fp.tokenPrice * (amount : ℚ) / tp.tokenPrice) =
      ⌊(amount : ℚ) * fp.tokenPrice / tp.tokenPrice⌋ := by
    rw [ratFloor_eq_intFloor, mul_comm]
  have hs1find : getTokenHolding (updateTokenHolding s fh.id (fun x =>
      { x with amount := fh.amount - amount })) userId toPlayerId =
      getTokenHolding s userId toPlayerId := by
    rw [getTokenHolding_update s fh.id
      (fun x => { x with amount := fh.amount - amount }) (fun x => ⟨rfl, rfl⟩)]
    cases hdest : getTokenHolding s userId toPlayerId with
    | none => rfl
    | some th =>
      have hthmem : th ∈ s.holdings := findHolding_mem hdest
      have hfhmem : fh ∈ s.holdings := findHolding_mem hh
      have hkeys := findHolding_keys hdest
      have hfkeys := findHolding_keys hh
      have hneq : ¬ th.id = fh.id := by
        intro hid
        have hthfh : th = fh :=
          List.inj_on_of_nodup_map hnodup hthmem hfhmem hid
        rw [hthfh] at hkeys
        exact hne (hfkeys.2.symm.trans hkeys.2)
      simp [hneq]
  constructor
  · intro hle
    unfold swap
    rw [if_neg (by simp [hu, hf0, ht0, ha])]
    rw [hh]
    dsimp only
    rw [if_neg (Nat.not_lt.2 hamt), if_neg (by simp [hstk])]
    rw [hfp, htp]
    dsimp only
    rw [if_pos (by rw [hbridge]; exact hle)]
  · intro hpos
    unfold swap
    rw [if_neg (by simp [hu, hf0, ht0, ha])]
    rw [hh]
    dsimp only
    rw [if_neg (Nat.not_lt.2 hamt), if_neg (by simp [hstk])]
    rw [hfp, htp]
    dsimp only
    rw [if_neg (by rw [hbridge]; exact not_le.2 hpos)]
    rw [hbridge, hs1find]
    cases hdest : getTokenHolding s userId toPlayerId with
    | none =>
      dsimp only
      cases hpf : getUserPortfolio (createTransaction (createTokenHolding
          (updateTokenHolding s fh.id (fun x =>
            { x with amount := fh.amount - amount }))
          userId toPlayerId
          (⌊(amount : ℚ) * fp.tokenPrice / tp.tokenPrice⌋.toNat)
          tp.tokenPrice) userId toPlayerId "swap"
          (⌊(amount : ℚ) * fp.tokenPrice / tp.tokenPrice⌋.toNat)
          tp.tokenPrice (some fromPlayerId) now) userId with
      | none =>
        dsimp only
        rw [getTokenHolding_createTransaction,
          getTokenHolding_createTokenHolding_self _ _ _ _ _ (by rw [hs1find, hdest])]
        exact ⟨_, rfl, by simp [Int.toNat_of_nonneg hpos.le]⟩
      | some pf =>
        dsimp only
        rw [getTokenHolding_updatePortfolioHistory, getTokenHolding_createTransaction,
          getTokenHolding_createTokenHolding_self _ _ _ _ _ (by rw [hs1find, hdest])]
        exact ⟨_, rfl, by simp [Int.toNat_of_nonneg hpos.le]⟩
    | some th =>
      dsimp only
      have hupd : getTokenHolding (updateTokenHolding
          (updateTokenHolding s fh.id (fun x =>
            { x with amount := fh.amount - amount })) th.id (fun x =>
            { x with amount :=
              th.amount + ⌊(amount : ℚ) * fp.tokenPrice / tp.tokenPrice⌋.toNat }))
          userId toPlayerId =
          some { th with amount :=
            th.amount + ⌊(amount : ℚ) * fp.tokenPrice / tp.tokenPrice⌋.toNat } := by
        rw [getTokenHolding_update _ th.id (fun x =>
          { x with amount :=
            th.amount + ⌊(amount : ℚ) * fp.tokenPrice / tp.tokenPrice⌋.toNat })
          (fun x => ⟨rfl, rfl⟩), hs1find, hdest]
        simp
      cases hpf : getUserPortfolio (createTransaction (updateTokenHolding
          (updateTokenHolding s fh.id (fun x =>
            { x with amount := fh.amount - amount })) th.id (fun x =>
            { x with amount :=
              th.amount + ⌊(amount : ℚ) * fp.tokenPrice / tp.tokenPrice⌋.toNat }))
          userId toPlayerId "swap"
          (⌊(amount : ℚ) * fp.tokenPrice / tp.tokenPrice⌋.toNat)
          tp.tokenPrice (some fromPlayerId) now) userId with
      | none =>
        dsimp only
        rw [getTokenHolding_createTransaction, hupd]
        exact ⟨_, rfl, by simp [Int.toNat_of_nonneg hpos.le]⟩
      | some pf =>
        dsimp only
        rw [getTokenHolding_updatePortfolioHistory,
          getTokenHolding_createTransaction, hupd]
        exact ⟨_, rfl, by simp [Int.toNat_of_nonneg hpos.le]⟩

/-- C1 witness: from-price 2, to-price 4, amount 10 credits
`floor(10 * 2 / 4) = 5` destination tokens. -/
theorem swap_credits_floor_witness :
    ∃ th1, getTokenHolding (swap baseState 0 1 1 2 10).2 1 2 = some th1 ∧
      th1.amount = 5 := by
  have hfloor : (0 : Int) < ⌊(10 : ℚ) * (2 : ℚ) / (4 : ℚ)⌋ := by
    rw [← ratFloor_eq_intFloor]; decide
  obtain ⟨th1, hth, heq⟩ := (swap_credits_floor baseState 0 1 1 2 10
    baseHolding ⟨1, "NBA", 2⟩ ⟨2, "NFL", 4⟩ (by decide) (by decide) (by decide)
    (by decide) (by decide) (by decide) (by decide) (by decide) (by decide)
    (by decide) (by decide)).2 hfloor
  refine ⟨th1, hth, ?_⟩
  have heval : ((getTokenHolding baseState 1 2).map
      (fun th => (th.amount : Int))).getD 0 = 0 := by decide
  rw [heval] at heq
  norm_num at heq
  exact_mod_cast heq

/-! ## C7: portfolio aggregates -/

lemma foldl_pfStep (l : List (TokenHolding × Player)) (acc : Portfolio) :
    (l.foldl pfStep acc).totalValue = acc.totalValue +
      (l.map (fun t => (t.1.amount : ℚ) * t.2.tokenPrice)).sum ∧
    (l.foldl pfStep acc).nbaTokens = acc.nbaTokens +
      ((l.filter (fun t => t.2.sport = "NBA")).map (fun t => t.1.amount)).sum ∧
    (l.foldl pfStep acc).nflTokens = acc.nflTokens +
      ((l.filter (fun t => t.2.sport = "NFL")).map (fun t => t.1.amount)).sum ∧
    (l.foldl pfStep acc).stakedTokens = acc.stakedTokens +
      ((l.filter (fun t => t.1.isStaked = true)).map (fun t => t.1.amount)).sum := by
  induction l generalizing acc with
  | nil => simp
  | cons t ts ih =>
    obtain ⟨ih1, ih2, ih3, ih4⟩ := ih (pfStep acc t)
    rw [List.foldl_cons]
    refine ⟨?_, ?_, ?_, ?_⟩
    · rw [ih1]
      simp [pfStep, add_assoc]
    · rw [ih2]
      by_cases hx : t.2.sport = "NBA" <;>
        simp [pfStep, hx, List.filter_cons, Nat.add_assoc]
    · rw [ih3]
      by_cases hx : t.2.sport = "NBA"
      · have hx2 : ¬ t.2.sport = "NFL" := by simp [hx]
        simp [pfStep, hx, hx2, List.filter_cons]
      · by_cases hy : t.2.sport = "NFL" <;>
          simp [pfStep, hx, hy, List.filter_cons, Nat.add_assoc]
    · rw [ih4]
      by_cases hx : t.1.isStaked <;>
        simp [pfStep, hx, List.filter_cons, Nat.add_assoc]

lemma sum_filter_sports (l : List (TokenHolding × Player))
    (h : ∀ t ∈ l, t.2.sport = "NBA" ∨ t.2.sport = "NFL") :
    ((l.filter (fun t => t.2.sport = "NBA")).map (fun t => t.1.amount)).sum +
    ((l.filter (fun t => t.2.sport = "NFL")).map (fun t => t.1.amount)).sum =
    (l.map (fun t => t.1.amount)).sum := by
  induction l with
  | nil => simp
  | cons t ts ih =>
    have ht := h t (List.mem_cons_self t ts)
    have hts : ∀ x ∈ ts, x.2.sport = "NBA" ∨ x.2.sport = "NFL" :=
      fun x hx => h x (List.mem_cons_of_mem t hx)
    rcases ht with hx | hx
    · have hx2 : ¬ t.2.sport = "NFL" := by simp [hx]
      simp only [List.filter_cons]
      rw [if_pos (by simp [hx]), if_neg (by simp [hx2])]
      simp only [List.map_cons, List.sum_cons]
      rw [← ih hts]
      omega
    · have hx2 : ¬ t.2.sport = "NBA" := by simp [hx]
      simp only [List.filter_cons]
      rw [if_neg (by simp [hx2]), if_pos (by simp [hx])]
      simp only [List.map_cons, List.sum_cons]
      rw [← ih hts]
      omega

lemma getUserPortfolio_eq (s : State) (u : Nat)
    (toks : List (TokenHolding × Player)) (txs : List (Transaction × Player))
    (htoks : getUserTokens s u = some toks)
    (htx : getUserTransactions s u = some txs) :
    getUserPortfolio s u = some (toks.foldl pfStep ⟨0, 0, 0, 0⟩) := by
  unfold getUserPortfolio
  rw [htoks, htx]
  rfl

/-- C7: the computed portfolio satisfies
`totalValue = Σ amount_i * currentPrice_i`, `nbaTokens`/`nflTokens` are the
sums of amounts of holdings grouped by sport, `stakedTokens` is the sum of
amounts of staked holdings, and when every joined player is NBA or NFL,
`nbaTokens + nflTokens` is the sum of all the user holding amounts. -/
theorem portfolio_aggregates (s : State) (u : Nat)
    (toks : List (TokenHolding × Player)) (pf : Portfolio)
    (htoks : getUserTokens s u = some toks)
    (hpf : getUserPortfolio s u = some pf) :
    pf.totalValue = (toks.map (fun t => (t.1.amount : ℚ) * t.2.tokenPrice)).sum ∧
    pf.nbaTokens =
      ((toks.filter (fun t => t.2.sport = "NBA")).map (fun t => t.1.amount)).sum ∧
    pf.nflTokens =
      ((toks.filter (fun t => t.2.sport = "NFL")).map (fun t => t.1.amount)).sum ∧
    pf.stakedTokens =
      ((toks.filter (fun t => t.1.isStaked = true)).map (fun t => t.1.amount)).sum ∧
    ((∀ t ∈ toks, t.2.sport = "NBA" ∨ t.2.sport = "NFL") →
      pf.nbaTokens + pf.nflTokens = (toks.map (fun t => t.1.amount)).sum) := by
  have hsome : (getUserTransactions s u).isSome := by
    have := (getUserPortfolio_isSome s u).1 (by rw [hpf]; rfl)
    exact this.2
  obtain ⟨txs, htx⟩ := Option.isSome_iff_exists.1 hsome
  have hpfeq : pf = toks.foldl pfStep ⟨0, 0, 0, 0⟩ := by
    have heq := getUserPortfolio_eq s u toks txs htoks htx
    rw [hpf] at heq
    exact Option.some.inj heq
  subst hpfeq
  obtain ⟨h1, h2, h3, h4⟩ := foldl_pfStep toks ⟨0, 0, 0, 0⟩
  simp only [zero_add] at h1 h2 h3 h4
  refine ⟨h1, h2, h3, h4, ?_⟩
  intro hsport
  rw [h2, h3]
  exact sum_filter_sports toks hsport

/-- C7 witness: for user 1 of the base store (one holding of ten tokens at
price 2 of an NBA player) the aggregates are 20 / 10 / 0 / 0 and
`nbaTokens + nflTokens` equals the total held amount. -/
theorem portfolio_aggregates_witness :
    ∃ pf, getUserPortfolio baseState 1 = some pf ∧
      pf.totalValue = (([((baseHolding, (⟨1, "NBA", 2⟩ : Player)))]).map
        (fun t => (t.1.amount : ℚ) * t.2.tokenPrice)).sum ∧
      pf.nbaTokens + pf.nflTokens =
        (([((baseHolding, (⟨1, "NBA", 2⟩ : Player)))]).map
          (fun t => t.1.amount)).sum := by
  have hpf : getUserPortfolio baseState 1 =
      some ⟨20, 10, 0, 0⟩ := by decide
  have htoks : getUserTokens baseState 1 =
      some [(baseHolding, ⟨1, "NBA", 2⟩)] := by decide
  obtain ⟨h1, h2, h3, h4, h5⟩ :=
    portfolio_aggregates baseState 1 _ _ htoks hpf
  exact ⟨_, hpf, h1, h5 (by decide)⟩

/-! ## C2: achievement progress is monotonically non-decreasing -/

lemma findUserAchievement_map (l : List UserAchievement)
    (g : UserAchievement → UserAchievement)
    (hg : ∀ x, (g x).userId = x.userId ∧ (g x).achievementId = x.achievementId)
    (u a : Nat) :
    findUserAchievement (l.map g) u a = (findUserAchievement l u a).map g := by
  induction l with
  | nil => rfl
  | cons h t ih =>
    simp only [List.map_cons, findUserAchievement]
    by_cases hm : h.userId = u ∧ h.achievementId = a
    · rw [if_pos hm, if_pos (by rw [(hg h).1, (hg h).2]; exact hm)]
      rfl
    · rw [if_neg hm, if_neg (by rw [(hg h).1, (hg h).2]; exact hm)]
      exact ih

lemma findUserAchievement_append_some {l1 : List UserAchievement} {u a : Nat}
    {ua : UserAchievement} (l2 : List UserAchievement)
    (hf : findUserAchievement l1 u a = some ua) :
    findUserAchievement (l1 ++ l2) u a = some ua := by
  induction l1 with
  | nil => simp [findUserAchievement] at hf
  | cons x t ih =>
    simp only [findUserAchievement, List.cons_append] at hf ⊢
    by_cases hm : x.userId = u ∧ x.achievementId = a
    · rw [if_pos hm] at hf ⊢; exact hf
    · rw [if_neg hm] at hf ⊢; exact ih hf

lemma findUserAchievement_mem {l : List UserAchievement} {u a : Nat}
    {ua : UserAchievement} (hf : findUserAchievement l u a = some ua) :
    ua ∈ l := by
  induction l with
  | nil => simp [findUserAchievement] at hf
  | cons x t ih =>
    simp only [findUserAchievement] at hf
    by_cases hm : x.userId = u ∧ x.achievementId = a
    · rw [if_pos hm] at hf
      simp only [Option.some.injEq] at hf
      exact hf ▸ List.mem_cons_self x t
    · rw [if_neg hm] at hf
      exact List.mem_cons_of_mem x (ih hf)

lemma findUserAchievement_replace (l : List UserAchievement) (uid : Nat)
    (f : UserAchievement → UserAchievement)
    (hf : ∀ x, (f x).userId = x.userId ∧ (f x).achievementId = x.achievementId)
    (u a : Nat) :
    findUserAchievement (replaceUserAchievement l uid f) u a =
      (findUserAchievement l u a).map
        (fun x => if x.id = uid then f x else x) := by
  unfold replaceUserAchievement
  exact findUserAchievement_map l _
    (fun x => by by_cases hx : x.id = uid <;> simp [hx, hf x]) u a

lemma wf_ua_replace (s : State) (uid : Nat)
    (f : UserAchievement → UserAchievement)
    (hid : ∀ x, (f x).id = x.id) (hwf : WF s) :
    WF { s with
      userAchievements := replaceUserAchievement s.userAchievements uid f } := by
  obtain ⟨⟨hnd, hbound⟩, hhold⟩ := hwf
  refine ⟨⟨?_, ?_⟩, hhold⟩
  · unfold replaceUserAchievement
    rw [List.map_map]
    have hcomp : ((fun x : UserAchievement => x.id) ∘
        fun x => if x.id = uid then f x else x) =
        fun x : UserAchievement => x.id := by
      funext x
      by_cases hx : x.id = uid
      · simp only [Function.comp_apply, if_pos hx, hid x]
      · simp only [Function.comp_apply, if_neg hx]
    rw [hcomp]
    exact hnd
  · intro x hx
    unfold replaceUserAchievement at hx
    rcases List.mem_map.1 hx with ⟨y, hy, rfl⟩
    by_cases hyid : y.id = uid
    · simp only [if_pos hyid, hid y]
      exact hbound y hy
    · simp only [if_neg hyid]
      exact hbound y hy

lemma storedProgress_replace (s : State) (uid : Nat)
    (f : UserAchievement → UserAchievement)
    (hkeys : ∀ x, (f x).userId = x.userId ∧
      (f x).achievementId = x.achievementId) (u2 a2 : Nat) :
    storedProgress { s with
        userAchievements := replaceUserAchievement s.userAchievements uid f }
      u2 a2 =
    (findUserAchievement s.userAchievements u2 a2).map
      (fun x => if x.id = uid then (f x).progress else x.progress) := by
  unfold storedProgress
  dsimp only
  rw [findUserAchievement_replace _ _ _ hkeys]
  cases findUserAchievement s.userAchievements u2 a2 with
  | none => rfl
  | some ua2 =>
    simp only [Option.map_some', Option.some.injEq]
    by_cases h2 : ua2.id = uid <;> simp [h2]

/-- One `updateUserAchievementProgress` call preserves store well-formedness
and never decreases any stored progress value. -/
lemma updateUA_mono (s : State) (u a : Nat) (p : Int) (now : Nat) (s1 : State)
    (hwf : WF s)
    (h : updateUserAchievementProgress s u a p now = Except.ok s1) :
    WF s1 ∧ ∀ u2 a2 x, storedProgress s u2 a2 = some x →
      ∃ y, storedProgress s1 u2 a2 = some y ∧ x ≤ y := by
  unfold updateUserAchievementProgress at h
  cases hf : findUserAchievement s.userAchievements u a with
  | none =>
    rw [hf] at h
    dsimp only at h
    cases hach : getAchievement s a with
    | none => rw [hach] at h; exact absurd h (by simp)
    | some ach =>
      rw [hach] at h
      dsimp only at h
      obtain rfl : _ = s1 := Except.ok.inj h
      obtain ⟨⟨hnd, hbound⟩, hhold⟩ := hwf
      refine ⟨⟨⟨?_, ?_⟩, hhold⟩, ?_⟩
      · rw [List.map_append]
        rw [List.nodup_append]
        refine ⟨hnd, List.nodup_singleton _, ?_⟩
        intro i hi hi2
        rcases List.mem_singleton.1 hi2 with rfl
        rcases List.mem_map.1 hi with ⟨x, hx, hxid⟩
        dsimp only at hxid
        exact absurd hxid (Nat.ne_of_lt (hbound x hx))
      · intro x hx
        rcases List.mem_append.1 hx with hx | hx
        · exact Nat.lt_trans (hbound x hx) (Nat.lt_succ_self _)
        · rcases List.mem_singleton.1 hx with rfl
          exact Nat.lt_succ_self _
      · intro u2 a2 x hx
        unfold storedProgress at hx ⊢
        cases hf2 : findUserAchievement s.userAchievements u2 a2 with
        | none => rw [hf2] at hx; simp at hx
        | some ua2 =>
          rw [hf2] at hx
          refine ⟨x, ?_, le_refl x⟩
          dsimp only
          rw [findUserAchievement_append_some _ hf2]
          exact hx
  | some ua =>
    rw [hf] at h
    dsimp only at h
    cases hach : getAchievement s a with
    | none => rw [hach] at h; exact absurd h (by simp)
    | some ach =>
      rw [hach] at h
      dsimp only at h
      by_cases hlt : ua.progress < p
      · rw [if_pos hlt] at h
        obtain rfl : _ = s1 := Except.ok.inj h
        have hFkeys : ∀ x : UserAchievement,
            ((fun x : UserAchievement =>
              if x.completed = false ∧ (ach.requirementValue : Int) ≤ p then
                { x with progress := p, completed := true,
                         completedAt := some now }
              else { x with progress := p }) x).userId = x.userId ∧
            ((fun x : UserAchievement =>
              if x.completed = false ∧ (ach.requirementValue : Int) ≤ p then
                { x with progress := p, completed := true,
                         completedAt := some now }
              else { x with progress := p }) x).achievementId =
              x.achievementId := by
          intro x
          by_cases hc : x.completed = false ∧ (ach.requirementValue : Int) ≤ p <;>
            simp [hc]
        have hFid : ∀ x : UserAchievement,
            ((fun x : UserAchievement =>
              if x.completed = false ∧ (ach.requirementValue : Int) ≤ p then
                { x with progress := p, completed := true,
                         completedAt := some now }
              else { x with progress := p }) x).id = x.id := by
          intro x
          by_cases hc : x.completed = false ∧ (ach.requirementValue : Int) ≤ p <;>
            simp [hc]
        have hFprog : ∀ x : UserAchievement,
            ((fun x : UserAchievement =>
              if x.completed = false ∧ (ach.requirementValue : Int) ≤ p then
                { x with progress := p, completed := true,
                         completedAt := some now }
              else { x with progress := p }) x).progress = p := by
          intro x
          by_cases hc : x.completed = false ∧ (ach.requirementValue : Int) ≤ p <;>
            simp [hc]
        refine ⟨wf_ua_replace s ua.id _ hFid hwf, ?_⟩
        intro u2 a2 x hx
        rw [storedProgress_replace s ua.id _ hFkeys u2 a2]
        unfold storedProgress at hx
        cases hf2 : findUserAchievement s.userAchievements u2 a2 with
        | none => rw [hf2] at hx; simp at hx
        | some ua2 =>
          rw [hf2] at hx
          simp only [Option.map_some', Option.some.injEq] at hx
          simp only [Option.map_some', Option.some.injEq]
          by_cases hid2 : ua2.id = ua.id
          · have hua2 : ua2 = ua :=
              List.inj_on_of_nodup_map hwf.1.1 (findUserAchievement_mem hf2)
                (findUserAchievement_mem hf) hid2
            refine ⟨_, rfl, ?_⟩
            rw [if_pos hid2, hFprog ua2]
            rw [← hx, hua2]
            exact le_of_lt hlt
          · refine ⟨_, rfl, ?_⟩
            rw [if_neg hid2, hx]
      · rw [if_neg hlt] at h
        obtain rfl : s = s1 := Except.ok.inj h
        exact ⟨hwf, fun u2 a2 x hx => ⟨x, hx, le_refl x⟩⟩

/-- The achievement loop preserves well-formedness and monotonicity. -/
lemma runAchievementChecks_mono (txs : List (Transaction × Player))
    (toks : List (TokenHolding × Player)) (tv : ℚ) (u now : Nat) :
    ∀ (la : List Achievement) (s s1 : State), WF s →
      runAchievementChecks txs toks tv u now la s = some s1 →
      WF s1 ∧ ∀ u2 a2 x, storedProgress s u2 a2 = some x →
        ∃ y, storedProgress s1 u2 a2 = some y ∧ x ≤ y := by
  intro la
  induction la with
  | nil =>
    intro s s1 hwf h
    obtain rfl : s = s1 := Option.some.inj h
    exact ⟨hwf, fun u2 a2 x hx => ⟨x, hx, le_refl x⟩⟩
  | cons a rest ih =>
    intro s s1 hwf h
    unfold runAchievementChecks at h
    cases hcp : computeProgress a txs toks tv with
    | none =>
      rw [hcp] at h
      exact ih s s1 hwf h
    | some p =>
      rw [hcp] at h
      dsimp only at h
      cases hup : updateUserAchievementProgress s u a.id p now with
      | error e => rw [hup] at h; exact absurd h (by simp)
      | ok smid =>
        rw [hup] at h
        dsimp only at h
        obtain ⟨hwf1, hmono1⟩ := updateUA_mono s u a.id p now smid hwf hup
        obtain ⟨hwf2, hmono2⟩ := ih smid s1 hwf1 h
        refine ⟨hwf2, fun u2 a2 x hx => ?_⟩
        obtain ⟨y, hy, hxy⟩ := hmono1 u2 a2 x hx
        obtain ⟨z, hz, hyz⟩ := hmono2 u2 a2 y hy
        exact ⟨z, hz, le_trans hxy hyz⟩

/-- One `checkAndUpdateAchievements` call preserves well-formedness and
monotonicity. -/
lemma checkAndUpdate_mono (s s1 : State) (u now : Nat) (hwf : WF s)
    (h : checkAndUpdateAchievements s u now = some s1) :
    WF s1 ∧ ∀ u2 a2 x, storedProgress s u2 a2 = some x →
      ∃ y, storedProgress s1 u2 a2 = some y ∧ x ≤ y := by
  unfold checkAndUpdateAchievements at h
  cases htx : getUserTransactions s u with
  | none => rw [htx] at h; exact absurd h (by simp)
  | some txs =>
    rw [htx] at h
    cases htk : getUserTokens s u with
    | none => rw [htk] at h; exact absurd h (by simp)
    | some toks =>
      rw [htk] at h
      cases hpf : getUserPortfolio s u with
      | none => rw [hpf] at h; exact absurd h (by simp)
      | some pf =>
        rw [hpf] at h
        exact runAchievementChecks_mono txs toks pf.totalValue u now
          s.achievements s s1 hwf h

/-- C2: over any sequence of `checkAndUpdateAchievements` calls, no stored
user-achievement progress ever decreases (even when a recomputation yields
the same or a smaller number), because `updateUserAchievementProgress`
applies a newly computed value only when it strictly exceeds the stored one;
and a non-exceeding value leaves the store exactly unchanged. -/
theorem achievement_progress_monotone (s : State) (hwf : WF s) :
    (∀ calls s1, runChecks s calls = some s1 →
      ∀ u a x, storedProgress s u a = some x →
        ∃ y, storedProgress s1 u a = some y ∧ x ≤ y) ∧
    (∀ u a (p : Int) now ua ach,
      findUserAchievement s.userAchievements u a = some ua →
      getAchievement s a = some ach → p ≤ ua.progress →
      updateUserAchievementProgress s u a p now = Except.ok s) := by
  constructor
  · have main : ∀ (calls : List (Nat × Nat)) (s0 s1 : State), WF s0 →
        runChecks s0 calls = some s1 →
        ∀ u a x, storedProgress s0 u a = some x →
          ∃ y, storedProgress s1 u a = some y ∧ x ≤ y := by
      intro calls
      induction calls with
      | nil =>
        intro s0 s1 _ h u a x hx
        obtain rfl : s0 = s1 := Option.some.inj h
        exact ⟨x, hx, le_refl x⟩
      | cons c rest ih =>
        intro s0 s1 hwf0 h u a x hx
        obtain ⟨u0, t0⟩ := c
        unfold runChecks at h
        cases hstep : checkAndUpdateAchievements s0 u0 t0 with
        | none => rw [hstep] at h; exact absurd h (by simp)
        | some smid =>
          rw [hstep] at h
          dsimp only at h
          obtain ⟨hwf1, hmono1⟩ := checkAndUpdate_mono s0 smid u0 t0 hwf0 hstep
          obtain ⟨y, hy, hxy⟩ := hmono1 u a x hx
          obtain ⟨z, hz, hyz⟩ := ih smid s1 hwf1 h u a y hy
          exact ⟨z, hz, le_trans hxy hyz⟩
    exact fun calls s1 h u a x hx => main calls s s1 hwf h u a x hx
  · intro u a p now ua ach hf hach hle
    unfold updateUserAchievementProgress
    rw [hf]
    dsimp only
    rw [hach]
    dsimp only
    rw [if_neg (not_lt.2 hle)]

/-- Store for the achievement witness: one achievement requiring five
transactions and an existing progress record at 2 for user 1, who has no
activity (the recomputation yields 0, smaller than the stored 2). -/
def checkState : State :=
  { users := [1], players := [⟨1, "NBA", 2⟩], holdings := [],
    transactions := [], history := [], plans := [],
    achievements := [⟨1, "total_transactions", 5⟩],
    userAchievements := [⟨1, 1, 1, false, 2, none⟩],
    holdingIdCounter := 1, txIdCounter := 1, historyIdCounter := 1,
    uaIdCounter := 2 }

/-- C2 witness: one check call on `checkState` keeps the stored progress of
(user 1, achievement 1) at least 2. -/
theorem achievement_progress_monotone_witness :
    ∃ s1 y, runChecks checkState [(1, 0)] = some s1 ∧
      storedProgress s1 1 1 = some y ∧ 2 ≤ y := by
  have hs : (runChecks checkState [(1, 0)]).isSome := by decide
  obtain ⟨s1, hs1⟩ := Option.isSome_iff_exists.1 hs
  obtain ⟨y, hy, hxy⟩ := (achievement_progress_monotone checkState
    (by decide)).1 [(1, 0)] s1 hs1 1 1 2 (by decide)
  exact ⟨s1, y, hs1, hy, hxy⟩

/-! ## C6: sell preconditions, rejection without mutation, and effect -/

@[simp] lemma transactions_updateTokenHolding (s : State) (hid : Nat)
    (f : TokenHolding → TokenHolding) :
    (updateTokenHolding s hid f).transactions = s.transactions := rfl

@[simp] lemma history_updateTokenHolding (s : State) (hid : Nat)
    (f : TokenHolding → TokenHolding) :
    (updateTokenHolding s hid f).history = s.history := rfl

@[simp] lemma transactions_createTokenHolding (s : State) (u p a : Nat)
    (pr : ℚ) : (createTokenHolding s u p a pr).transactions =
      s.transactions := rfl

@[simp] lemma history_createTransaction (s : State) (u p : Nat) (ty : String)
    (a : Nat) (pr : ℚ) (fpid : Option Nat) (now : Nat) :
    (createTransaction s u p ty a pr fpid now).history = s.history := rfl

/-- Failure part of the sell contract: when no adequate holding exists the
handler rejects with the store unchanged. -/
lemma sell_fail (s : State) (now userId playerId amount : Nat) (price : ℚ)
    (hu : userId ≠ 0) (hp : playerId ≠ 0) (ha : amount ≠ 0) (hpr : price ≠ 0)
    (hn : ¬ ∃ h, getTokenHolding s userId playerId = some h ∧
      h.isStaked = false ∧ amount ≤ h.amount) :
    (sell s now userId playerId amount price).1.isSome ∧
    (sell s now userId playerId amount price).2 = s := by
  unfold sell
  rw [if_neg (by simp [hu, hp, ha, hpr])]
  cases hh : getTokenHolding s userId playerId with
  | none => exact ⟨rfl, rfl⟩
  | some h =>
    dsimp only
    by_cases h1 : h.amount < amount
    · rw [if_pos h1]
      exact ⟨rfl, rfl⟩
    · rw [if_neg h1]
      have hstk : h.isStaked = true := by
        cases hb : h.isStaked with
        | false => exact absurd ⟨h, hh, hb, Nat.le_of_not_lt h1⟩ hn
        | true => rfl
      rw [if_pos (by rw [hstk])]
      exact ⟨rfl, rfl⟩

/-- Success part of the sell contract, as an explicit result-state
equation. -/
lemma sell_ok (s : State) (now userId playerId amount : Nat) (price : ℚ)
    (hu : userId ≠ 0) (hp : playerId ≠ 0) (ha : amount ≠ 0) (hpr : price ≠ 0)
    (h : TokenHolding)
    (hh : getTokenHolding s userId playerId = some h)
    (hstk : h.isStaked = false) (hamt : amount ≤ h.amount)
    (hrefs : refsOK s userId) :
    ∃ pf, getUserPortfolio (createTransaction (updateTokenHolding s h.id
        (fun x => { x with amount := h.amount - amount }))
        userId playerId "sell" amount price none now) userId = some pf ∧
      sell s now userId playerId amount price =
        (none, updatePortfolioHistory (createTransaction (updateTokenHolding s
          h.id (fun x => { x with amount := h.amount - amount }))
          userId playerId "sell" amount price none now)
          userId pf.totalValue now) := by
  have hrefs2 : refsOK (createTransaction (updateTokenHolding s h.id
      (fun x => { x with amount := h.amount - amount }))
      userId playerId "sell" amount price none now) userId := by
    apply refsOK_createTransaction
    · have hpm : h.playerId = playerId := (findHolding_keys hh).2
      have hum : h.userId = userId := (findHolding_keys hh).1
      have hps := hrefs.1 h (findHolding_mem hh) hum
      rw [hpm] at hps
      exact hps
    · exact refsOK_updateTokenHolding s userId h.id _
        (fun x => ⟨rfl, rfl⟩) hrefs
  obtain ⟨pf, hpf⟩ := Option.isSome_iff_exists.1
    (getUserPortfolio_of_refsOK _ _ hrefs2)
  refine ⟨pf, hpf, ?_⟩
  unfold sell
  rw [if_neg (by simp [hu, hp, ha, hpr]), hh]
  dsimp only
  rw [if_neg (Nat.not_lt.2 hamt), if_neg (by simp [hstk])]
  rw [hpf]

/-- Success postconditions of the sell contract. -/
lemma sell_ok_post (s : State) (now userId playerId amount : Nat) (price : ℚ)
    (hu : userId ≠ 0) (hp : playerId ≠ 0) (ha : amount ≠ 0) (hpr : price ≠ 0)
    (h : TokenHolding)
    (hh : getTokenHolding s userId playerId = some h)
    (hstk : h.isStaked = false) (hamt : amount ≤ h.amount)
    (hrefs : refsOK s userId) :
    (sell s now userId playerId amount price).1 = none ∧
    (∃ h1, getTokenHolding (sell s now userId playerId amount price).2
        userId playerId = some h1 ∧ h1.amount = h.amount - amount) ∧
    (∃ tx, (sell s now userId playerId amount price).2.transactions =
      s.transactions ++ [tx] ∧ tx.type = "sell" ∧ tx.userId = userId ∧
      tx.playerId = playerId ∧ tx.amount = amount ∧ tx.price = price) ∧
    (∃ hist, (sell s now userId playerId amount price).2.history =
      s.history ++ [hist] ∧ hist.userId = userId) := by
  obtain ⟨pf, _, hsell⟩ := sell_ok s now userId playerId amount price
    hu hp ha hpr h hh hstk hamt hrefs
  rw [hsell]
  refine ⟨rfl, ⟨{ h with amount := h.amount - amount }, ?_, rfl⟩,
    ⟨_, rfl, rfl, rfl, rfl, rfl, rfl⟩, ⟨_, rfl, rfl⟩⟩
  rw [getTokenHolding_updatePortfolioHistory, getTokenHolding_createTransaction,
    getTokenHolding_update s h.id
      (fun x => { x with amount := h.amount - amount })
      (fun x => ⟨rfl, rfl⟩), hh]
  simp

/-- C6 (amended): for a request that passes the required-field validation
(nonzero ids, amount and price), `sell` rejects without mutating any state
unless a non-staked holding with sufficient amount exists; when the
preconditions hold (in a store whose rows reference existing players) it
decrements the holding by exactly the requested amount, appends one `sell`
transaction, and appends one portfolio-history snapshot. -/
theorem sell_spec (s : State) (now userId playerId amount : Nat) (price : ℚ)
    (hu : userId ≠ 0) (hp : playerId ≠ 0) (ha : amount ≠ 0) (hpr : price ≠ 0) :
    ((¬ ∃ h, getTokenHolding s userId playerId = some h ∧
        h.isStaked = false ∧ amount ≤ h.amount) →
      (sell s now userId playerId amount price).1.isSome ∧
      (sell s now userId playerId amount price).2 = s) ∧
    (∀ h, getTokenHolding s userId playerId = some h → h.isStaked = false →
      amount ≤ h.amount → refsOK s userId →
      (sell s now userId playerId amount price).1 = none ∧
      (∃ h1, getTokenHolding (sell s now userId playerId amount price).2
          userId playerId = some h1 ∧ h1.amount = h.amount - amount) ∧
      (∃ tx, (sell s now userId playerId amount price).2.transactions =
        s.transactions ++ [tx] ∧ tx.type = "sell" ∧ tx.userId = userId ∧
        tx.playerId = playerId ∧ tx.amount = amount ∧ tx.price = price) ∧
      (∃ hist, (sell s now userId playerId amount price).2.history =
        s.history ++ [hist] ∧ hist.userId = userId)) :=
  ⟨fun hn => sell_fail s now userId playerId amount price hu hp ha hpr hn,
    fun h hh hstk hamt hrefs => sell_ok_post s now userId playerId amount
      price hu hp ha hpr h hh hstk hamt hrefs⟩

/-- C6 counterexample: with an existing, unstaked holding of ten tokens,
selling `amount = 0` satisfies the preconditions of the claim literally
(`holding.amount >= 0`), yet the request is rejected by the required-field
guard (`!amount` is truthy for 0) and no `sell` transaction is appended. -/
theorem sell_zero_amount_counterexample :
    (getTokenHolding baseState 1 1 = some baseHolding ∧
      baseHolding.isStaked = false ∧ 0 ≤ baseHolding.amount) ∧
    (sell baseState 0 1 1 0 2).1.isSome ∧
    (sell baseState 0 1 1 0 2).2.transactions = baseState.transactions := by
  decide

/-- C6 witness: selling 4 of the 10 held tokens succeeds, leaves 6, and
appends a sell transaction and a history row. -/
theorem sell_spec_witness :
    (sell baseState 5 1 1 4 2).1 = none ∧
    (∃ h1, getTokenHolding (sell baseState 5 1 1 4 2).2 1 1 = some h1 ∧
      h1.amount = 6) ∧
    ∃ tx, (sell baseState 5 1 1 4 2).2.transactions =
      baseState.transactions ++ [tx] ∧ tx.type = "sell" := by
  obtain ⟨h0, ⟨h1, hh1, hamt⟩, ⟨tx, htx, hty, _⟩, _⟩ :=
    (sell_spec baseState 5 1 1 4 2 (by decide) (by decide) (by decide)
      (by decide)).2 baseHolding (by decide) (by decide) (by decide) (by decide)
  exact ⟨h0, ⟨h1, hh1, by rw [hamt]; decide⟩, tx, htx, hty⟩

/-! ## C3: buy then sell of the same amount -/

@[simp] lemma getPlayer_updateTokenHolding (s : State) (hid : Nat)
    (f : TokenHolding → TokenHolding) (i : Nat) :
    getPlayer (updateTokenHolding s hid f) i = getPlayer s i := rfl

@[simp] lemma getPlayer_createTokenHolding (s : State) (u p a : Nat) (pr : ℚ)
    (i : Nat) : getPlayer (createTokenHolding s u p a pr) i =
      getPlayer s i := rfl

@[simp] lemma getPlayer_createTransaction (s : State) (u p : Nat)
    (ty : String) (a : Nat) (pr : ℚ) (fpid : Option Nat) (now i : Nat) :
    getPlayer (createTransaction s u p ty a pr fpid now) i =
      getPlayer s i := rfl

@[simp] lemma getPlayer_updatePortfolioHistory (s : State) (u : Nat) (tv : ℚ)
    (now i : Nat) :
    getPlayer (updatePortfolioHistory s u tv now) i = getPlayer s i := rfl

/-- C3 counterexample: buy never checks `isStaked`, so on a staked holding
of ten tokens a buy of three succeeds (amount becomes 13) while the
follow-up sell of three is rejected (`Cannot sell staked tokens`): the
holding does not return to its prior value and only one transaction is
recorded, refuting the claim as stated. -/
theorem buy_sell_staked_counterexample :
    getTokenHolding stakedState 1 1 = some stakedHolding ∧
    stakedHolding.amount = 10 ∧
    (buy stakedState 0 1 1 3 2).1 = none ∧
    (sell (buy stakedState 0 1 1 3 2).2 1 1 1 3 2).1.isSome ∧
    (getTokenHolding (sell (buy stakedState 0 1 1 3 2).2 1 1 1 3 2).2 1 1).map
      (fun h => h.amount) = some 13 ∧
    ((sell (buy stakedState 0 1 1 3 2).2 1 1 1 3 2).2.transactions.filter
      (fun t => t.userId == 1)).length = 1 := by
  decide

/-- C3 (amended): for every user, player and nonzero amount, when the user
and player exist, the store rows reference existing players, the request
fields are nonzero, and the pre-existing holding for the pair (if any) is
not staked, a successful Buy immediately followed by a Sell of the same
amount succeeds and returns `holding.amount` to its value before the Buy
(0 when there was no holding, the record remaining), with exactly two
transactions (one buy then one sell) appended for the user. -/
theorem buy_then_sell_restores (s : State)
    (buyNow sellNow userId playerId amount : Nat) (buyPrice sellPrice : ℚ)
    (hu : userId ≠ 0) (hp : playerId ≠ 0) (ha : amount ≠ 0)
    (hbp : buyPrice ≠ 0) (hsp : sellPrice ≠ 0)
    (hplayer : (getPlayer s playerId).isSome)
    (huser : userId ∈ s.users)
    (hrefs : refsOK s userId)
    (hnotstaked : ∀ h, getTokenHolding s userId playerId = some h →
      h.isStaked = false) :
    (buy s buyNow userId playerId amount buyPrice).1 = none ∧
    (sell (buy s buyNow userId playerId amount buyPrice).2
      sellNow userId playerId amount sellPrice).1 = none ∧
    (∃ h2, getTokenHolding (sell (buy s buyNow userId playerId amount
        buyPrice).2 sellNow userId playerId amount sellPrice).2
        userId playerId = some h2 ∧
      h2.amount = ((getTokenHolding s userId playerId).map
        (fun h => h.amount)).getD 0) ∧
    (∃ t1 t2, (sell (buy s buyNow userId playerId amount buyPrice).2
        sellNow userId playerId amount sellPrice).2.transactions =
      s.transactions ++ [t1, t2] ∧ t1.type = "buy" ∧ t2.type = "sell" ∧
      t1.userId = userId ∧ t2.userId = userId) := by
  obtain ⟨pl, hpl⟩ := Option.isSome_iff_exists.1 hplayer
  cases hh0 : getTokenHolding s userId playerId with
  | some h =>
    have hstk0 : h.isStaked = false := hnotstaked h hh0
    have hrefs2 : refsOK (createTransaction (updateTokenHolding s h.id
        (fun x => { x with amount := h.amount + amount, purchasePrice := buyPrice }))
        userId playerId "buy" amount buyPrice none buyNow) userId := by
      apply refsOK_createTransaction
      · rw [getPlayer_updateTokenHolding, hpl]; rfl
      · exact refsOK_updateTokenHolding s userId h.id _
          (fun x => ⟨rfl, rfl⟩) hrefs
    obtain ⟨pf, hpf⟩ := Option.isSome_iff_exists.1
      (getUserPortfolio_of_refsOK _ _ hrefs2)
    have hbuy : buy s buyNow userId playerId amount buyPrice =
        (none, updatePortfolioHistory (createTransaction (updateTokenHolding s
          h.id (fun x => { x with amount := h.amount + amount, purchasePrice := buyPrice }))
          userId playerId "buy" amount buyPrice none buyNow)
          userId pf.totalValue buyNow) := by
      unfold buy
      rw [if_neg (by simp [hu, hp, ha, hbp]), hpl]
      dsimp only
      rw [if_pos huser, hh0]
      dsimp only
      rw [hpf]
    rw [hbuy]
    have hbfind : getTokenHolding (updatePortfolioHistory (createTransaction
        (updateTokenHolding s h.id (fun x =>
          { x with amount := h.amount + amount, purchasePrice := buyPrice }))
        userId playerId "buy" amount buyPrice none buyNow)
        userId pf.totalValue buyNow) userId playerId =
        some { h with amount := h.amount + amount, purchasePrice := buyPrice } := by
      rw [getTokenHolding_updatePortfolioHistory,
        getTokenHolding_createTransaction,
        getTokenHolding_update s h.id (fun x =>
          { x with amount := h.amount + amount, purchasePrice := buyPrice })
          (fun x => ⟨rfl, rfl⟩), hh0]
      simp
    obtain ⟨hsell1, ⟨h2, hh2, hamt2⟩, ⟨t2, ht2, ht2ty, ht2u, _, _, _⟩, _⟩ :=
      sell_ok_post _ sellNow userId playerId amount sellPrice
        hu hp ha hsp _ hbfind hstk0 (Nat.le_add_left amount h.amount)
        (refsOK_updatePortfolioHistory _ _ _ _ _ hrefs2)
    refine ⟨rfl, hsell1, ⟨h2, hh2, ?_⟩, ?_⟩
    · rw [hamt2]
      simp
    · refine ⟨⟨s.txIdCounter, userId, playerId, "buy", amount, buyPrice,
        none, buyNow⟩, t2, ?_, rfl, ht2ty, rfl, ht2u⟩
      rw [ht2]
      rw [show (updatePortfolioHistory (createTransaction (updateTokenHolding s
          h.id (fun x => { x with amount := h.amount + amount, purchasePrice := buyPrice }))
          userId playerId "buy" amount buyPrice none buyNow)
          userId pf.totalValue buyNow).transactions =
        s.transactions ++ [⟨s.txIdCounter, userId, playerId, "buy", amount,
          buyPrice, none, buyNow⟩] from rfl]
      rw [List.append_assoc]
      rfl
  | none =>
    have hrefs2 : refsOK (createTransaction (createTokenHolding s userId
        playerId amount buyPrice)
        userId playerId "buy" amount buyPrice none buyNow) userId := by
      apply refsOK_createTransaction
      · rw [getPlayer_createTokenHolding, hpl]; rfl
      · apply refsOK_createTokenHolding
        · rw [hpl]; rfl
        · exact hrefs
    obtain ⟨pf, hpf⟩ := Option.isSome_iff_exists.1
      (getUserPortfolio_of_refsOK _ _ hrefs2)
    have hbuy : buy s buyNow userId playerId amount buyPrice =
        (none, updatePortfolioHistory (createTransaction (createTokenHolding s
          userId playerId amount buyPrice)
          userId playerId "buy" amount buyPrice none buyNow)
          userId pf.totalValue buyNow) := by
      unfold buy
      rw [if_neg (by simp [hu, hp, ha, hbp]), hpl]
      dsimp only
      rw [if_pos huser, hh0]
      dsimp only
      rw [hpf]
    rw [hbuy]
    have hbfind : getTokenHolding (updatePortfolioHistory (createTransaction
        (createTokenHolding s userId playerId amount buyPrice)
        userId playerId "buy" amount buyPrice none buyNow)
        userId pf.totalValue buyNow) userId playerId =
        some ⟨s.holdingIdCounter, userId, playerId, amount, buyPrice, false,
          none, none, none⟩ := by
      rw [getTokenHolding_updatePortfolioHistory,
        getTokenHolding_createTransaction,
        getTokenHolding_createTokenHolding_self s userId playerId amount
          buyPrice hh0]
    obtain ⟨hsell1, ⟨h2, hh2, hamt2⟩, ⟨t2, ht2, ht2ty, ht2u, _, _, _⟩, _⟩ :=
      sell_ok_post _ sellNow userId playerId amount sellPrice
        hu hp ha hsp _ hbfind rfl (le_refl amount)
        (refsOK_updatePortfolioHistory _ _ _ _ _ hrefs2)
    refine ⟨rfl, hsell1, ⟨h2, hh2, ?_⟩, ?_⟩
    · rw [hamt2]
      simp
    · refine ⟨⟨s.txIdCounter, userId, playerId, "buy", amount, buyPrice,
        none, buyNow⟩, t2, ?_, rfl, ht2ty, rfl, ht2u⟩
      rw [ht2]
      rw [show (updatePortfolioHistory (createTransaction (createTokenHolding s
          userId playerId amount buyPrice)
          userId playerId "buy" amount buyPrice none buyNow)
          userId pf.totalValue buyNow).transactions =
        s.transactions ++ [⟨s.txIdCounter, userId, playerId, "buy", amount,
          buyPrice, none, buyNow⟩] from rfl]
      rw [List.append_assoc]
      rfl

/-- C3 witness: buying 3 then selling 3 on the unstaked ten-token holding
returns the amount to 10, with a buy and a sell transaction appended. -/
theorem buy_then_sell_restores_witness :
    (buy baseState 0 1 1 3 2).1 = none ∧
    (sell (buy baseState 0 1 1 3 2).2 1 1 1 3 2).1 = none ∧
    (∃ h2, getTokenHolding (sell (buy baseState 0 1 1 3 2).2 1 1 1 3 2).2
        1 1 = some h2 ∧
      h2.amount = ((getTokenHolding baseState 1 1).map
        (fun h => h.amount)).getD 0) ∧
    (∃ t1 t2, (sell (buy baseState 0 1 1 3 2).2 1 1 1 3 2).2.transactions =
      baseState.transactions ++ [t1, t2] ∧ t1.type = "buy" ∧
      t2.type = "sell" ∧ t1.userId = 1 ∧ t2.userId = 1) :=
  buy_then_sell_restores baseState 0 1 1 1 3 2 2 (by decide) (by decide)
    (by decide) (by decide) (by decide) (by decide) (by decide) (by decide)
    (by decide)

/-! ## C8: the fresh-buy scenario -/

@[simp] lemma getUserTokens_updatePortfolioHistory (s : State) (u0 : Nat)
    (tv : ℚ) (now u : Nat) :
    getUserTokens (updatePortfolioHistory s u0 tv now) u =
      getUserTokens s u := rfl

@[simp] lemma getUserTransactions_updatePortfolioHistory (s : State)
    (u0 : Nat) (tv : ℚ) (now u : Nat) :
    getUserTransactions (updatePortfolioHistory s u0 tv now) u =
      getUserTransactions s u := rfl

@[simp] lemma getUserPortfolio_updatePortfolioHistory (s : State) (u0 : Nat)
    (tv : ℚ) (now u : Nat) :
    getUserPortfolio (updatePortfolioHistory s u0 tv now) u =
      getUserPortfolio s u := rfl

@[simp] lemma getUserTokens_createTransaction (s : State) (u0 p0 : Nat)
    (ty : String) (a : Nat) (pr : ℚ) (fpid : Option Nat) (now u : Nat) :
    getUserTokens (createTransaction s u0 p0 ty a pr fpid now) u =
      getUserTokens s u := rfl

lemma findHolding_none_of (l : List TokenHolding) (u p : Nat)
    (h : ∀ x ∈ l, x.userId ≠ u) : findHolding l u p = none := by
  induction l with
  | nil => rfl
  | cons x t ih =>
    simp only [findHolding]
    rw [if_neg (fun hc => h x (List.mem_cons_self x t) hc.1)]
    exact ih (fun y hy => h y (List.mem_cons_of_mem x hy))

/-- Store for the C8 scenario claim: user 1 holds nothing and has no
transactions; player 1 is currently priced 2 (not 2.50). -/
def freshState : State :=
  { users := [1], players := [⟨1, "NBA", 2⟩], holdings := [],
    transactions := [], history := [], plans := [], achievements := [],
    userAchievements := [],
    holdingIdCounter := 1, txIdCounter := 1, historyIdCounter := 1,
    uaIdCounter := 1 }

/-- C8 counterexample: a user with no holdings buys 3 tokens of player P at
price 2.50, but P is currently priced 2: the holding and the single buy
transaction appear as claimed, yet the portfolio totalValue is
`3 * currentPrice = 6`, not 7.50 — `totalValue` uses the player's current
`tokenPrice`, not the price the buy was made at. -/
theorem buy_scenario_counterexample :
    freshState.holdings = [] ∧
    (buy freshState 0 1 1 3 (5/2)).1 = none ∧
    (getTokenHolding (buy freshState 0 1 1 3 (5/2)).2 1 1).map
      (fun h => h.amount) = some 3 ∧
    ((buy freshState 0 1 1 3 (5/2)).2.transactions.filter
      (fun t => t.userId == 1)).length = 1 ∧
    (getUserPortfolio (buy freshState 0 1 1 3 (5/2)).2 1).map
      (fun pf => pf.totalValue) = some 6 ∧
    ¬ (getUserPortfolio (buy freshState 0 1 1 3 (5/2)).2 1).map
      (fun pf => pf.totalValue) = some (15/2) := by
  decide

/-- C8 (amended): for a user with no holdings and no transactions who buys
3 tokens of a player P whose current `tokenPrice` is 2.50, at price 2.50,
the resulting state has a holding of amount 3 for (user, P), exactly one
transaction — of type buy — for the user, and a portfolio totalValue of
7.50. -/
theorem buy_scenario (s : State) (now userId playerId : Nat) (P : Player)
    (hu : userId ≠ 0) (hp : playerId ≠ 0)
    (huser : userId ∈ s.users)
    (hpl : getPlayer s playerId = some P)
    (hprice : P.tokenPrice = 5/2)
    (hnoh : ∀ h ∈ s.holdings, h.userId ≠ userId)
    (hnot : ∀ t ∈ s.transactions, t.userId ≠ userId) :
    (buy s now userId playerId 3 (5/2)).1 = none ∧
    (∃ h1, getTokenHolding (buy s now userId playerId 3 (5/2)).2 userId
        playerId = some h1 ∧ h1.amount = 3) ∧
    (∃ t1, ((buy s now userId playerId 3 (5/2)).2.transactions.filter
      (fun t => t.userId == userId)) = [t1] ∧ t1.type = "buy" ∧
      t1.userId = userId) ∧
    (∃ pf, getUserPortfolio (buy s now userId playerId 3 (5/2)).2 userId =
      some pf ∧ pf.totalValue = 15/2) := by
  have hh0 : getTokenHolding s userId playerId = none :=
    findHolding_none_of s.holdings userId playerId hnoh
  have hfilh : s.holdings.filter (fun h => h.userId == userId) = [] :=
    List.filter_eq_nil_iff.2 (fun x hx => by simpa using hnoh x hx)
  have hfilt : s.transactions.filter (fun t => t.userId == userId) = [] :=
    List.filter_eq_nil_iff.2 (fun x hx => by simpa using hnot x hx)
  have htoks : getUserTokens (createTransaction (createTokenHolding s userId
      playerId 3 (5/2)) userId playerId "buy" 3 (5/2) none now) userId =
      some [(⟨s.holdingIdCounter, userId, playerId, 3, 5/2, false, none,
        none, none⟩, P)] := by
    show joinHoldings s.players ((s.holdings ++
      [(⟨s.holdingIdCounter, userId, playerId, 3, 5/2, false, none, none,
        none⟩ : TokenHolding)]).filter (fun h => h.userId == userId)) = _
    rw [List.filter_append, hfilh]
    simp only [List.nil_append, List.filter_cons]
    rw [if_pos (by simp)]
    simp only [List.filter_nil]
    unfold joinHoldings
    rw [show s.players.find? (fun pl => pl.id ==
      (⟨s.holdingIdCounter, userId, playerId, 3, 5/2, false, none, none,
        none⟩ : TokenHolding).playerId) = some P from hpl]
    rfl
  have htx : getUserTransactions (createTransaction (createTokenHolding s
      userId playerId 3 (5/2)) userId playerId "buy" 3 (5/2) none now)
      userId = some [(⟨s.txIdCounter, userId, playerId, "buy", 3, 5/2,
        none, now⟩, P)] := by
    show joinTransactions s.players ((s.transactions ++
      [(⟨s.txIdCounter, userId, playerId, "buy", 3, 5/2, none, now⟩ :
        Transaction)]).filter (fun t => t.userId == userId)) = _
    rw [List.filter_append, hfilt]
    simp only [List.nil_append, List.filter_cons]
    rw [if_pos (by simp)]
    simp only [List.filter_nil]
    unfold joinTransactions
    rw [show s.players.find? (fun pl => pl.id ==
      (⟨s.txIdCounter, userId, playerId, "buy", 3, 5/2, none, now⟩ :
        Transaction).playerId) = some P from hpl]
    rfl
  have hpfX := getUserPortfolio_eq _ userId _ _ htoks htx
  have hbuy : buy s now userId playerId 3 (5/2) =
      (none, updatePortfolioHistory (createTransaction (createTokenHolding s
        userId playerId 3 (5/2)) userId playerId "buy" 3 (5/2) none now)
        userId (([(⟨s.holdingIdCounter, userId, playerId, 3, 5/2, false,
          none, none, none⟩, P)].foldl pfStep
          ⟨0, 0, 0, 0⟩ : Portfolio)).totalValue now) := by
    unfold buy
    rw [if_neg (by simp [hu, hp]), hpl]
    dsimp only
    rw [if_pos huser, hh0]
    dsimp only
    rw [hpfX]
  rw [hbuy]
  refine ⟨rfl, ⟨⟨s.holdingIdCounter, userId, playerId, 3, 5/2, false, none,
      none, none⟩, ?_, rfl⟩,
    ⟨⟨s.txIdCounter, userId, playerId, "buy", 3, 5/2, none, now⟩, ?_, rfl,
      rfl⟩,
    ⟨[((⟨s.holdingIdCounter, userId, playerId, 3, 5/2, false, none, none,
      none⟩ : TokenHolding), P)].foldl pfStep ⟨0, 0, 0, 0⟩, ?_, ?_⟩⟩
  · rw [getTokenHolding_updatePortfolioHistory,
      getTokenHolding_createTransaction,
      getTokenHolding_createTokenHolding_self s userId playerId 3 (5/2) hh0]
  · rw [show (updatePortfolioHistory (createTransaction (createTokenHolding s
      userId playerId 3 (5/2)) userId playerId "buy" 3 (5/2) none now)
      userId _ now).transactions = s.transactions ++
      [⟨s.txIdCounter, userId, playerId, "buy", 3, 5/2, none, now⟩]
      from rfl]
    rw [List.filter_append, hfilt]
    simp only [List.nil_append, List.filter_cons]
    rw [if_pos (by simp)]
    rfl
  · rw [getUserPortfolio_updatePortfolioHistory]
    exact hpfX
  · simp only [List.foldl_cons, List.foldl_nil, pfStep]
    rw [hprice]
    norm_num

/-- C8 witness for the amended claim: on a store whose player is priced
2.50, the scenario yields amount 3, one buy transaction and totalValue
7.50. -/
theorem buy_scenario_witness :
    (buy { freshState with players := [⟨1, "NBA", 5/2⟩] } 0 1 1 3 (5/2)).1 =
      none ∧
    (∃ h1, getTokenHolding (buy { freshState with
        players := [⟨1, "NBA", 5/2⟩] } 0 1 1 3 (5/2)).2 1 1 = some h1 ∧
      h1.amount = 3) ∧
    (∃ t1, ((buy { freshState with players := [⟨1, "NBA", 5/2⟩] }
        0 1 1 3 (5/2)).2.transactions.filter (fun t => t.userId == 1)) =
      [t1] ∧ t1.type = "buy" ∧ t1.userId = 1) ∧
    (∃ pf, getUserPortfolio (buy { freshState with
        players := [⟨1, "NBA", 5/2⟩] } 0 1 1 3 (5/2)).2 1 = some pf ∧
      pf.totalValue = 15/2) :=
  buy_scenario { freshState with players := [⟨1, "NBA", 5/2⟩] } 0 1 1
    ⟨1, "NBA", 5/2⟩ (by decide) (by decide) (by decide) (by decide)
    (by decide) (by decide) (by decide)

/-! ## C10: a fully-sold holding stays in the store and still counts -/

lemma filter_userId_map (l : List TokenHolding)
    (g : TokenHolding → TokenHolding) (hg : ∀ x, (g x).userId = x.userId)
    (u : Nat) :
    (l.map g).filter (fun h => h.userId == u) =
      (l.filter (fun h => h.userId == u)).map g := by
  induction l with
  | nil => rfl
  | cons x t ih =>
    simp only [List.map_cons, List.filter_cons, hg x]
    cases hxb : (x.userId == u) with
    | false => simpa [hxb] using ih
    | true => simp [hxb, ih]

lemma joinHoldings_map (ps : List Player) (l : List TokenHolding)
    (g : TokenHolding → TokenHolding)
    (hg : ∀ x, (g x).playerId = x.playerId) :
    joinHoldings ps (l.map g) =
      (joinHoldings ps l).map (List.map (fun t => (g t.1, t.2))) := by
  induction l with
  | nil => rfl
  | cons x t ih =>
    simp only [List.map_cons, joinHoldings, hg x]
    cases hpl : ps.find? (fun pl => pl.id == x.playerId) with
    | none => rfl
    | some pl =>
      rw [ih]
      cases hj : joinHoldings ps t with
      | none => rfl
      | some rest => rfl

lemma joinHoldings_fst (ps : List Player) (l : List TokenHolding)
    (toks : List (TokenHolding × Player)) (h : joinHoldings ps l = some toks) :
    toks.map (fun t => t.1) = l := by
  induction l generalizing toks with
  | nil =>
    obtain rfl : [] = toks := by simpa [joinHoldings] using h
    rfl
  | cons x t ih =>
    simp only [joinHoldings] at h
    cases hpl : ps.find? (fun pl => pl.id == x.playerId) with
    | none => rw [hpl] at h; simp at h
    | some pl =>
      rw [hpl] at h
      cases hj : joinHoldings ps t with
      | none => rw [hj] at h; simp at h
      | some rest =>
        rw [hj] at h
        obtain rfl : (x, pl) :: rest = toks := by simpa using h
        simp only [List.map_cons]
        rw [ih rest hj]

lemma getUserTokens_update (s : State) (hid : Nat)
    (f : TokenHolding → TokenHolding)
    (hfu : ∀ x, (f x).userId = x.userId)
    (hfp : ∀ x, (f x).playerId = x.playerId) (u : Nat) :
    getUserTokens (updateTokenHolding s hid f) u =
      (getUserTokens s u).map (List.map (fun t =>
        ((fun x => if x.id = hid then f x else x) t.1, t.2))) := by
  unfold getUserTokens updateTokenHolding replaceHolding
  rw [filter_userId_map _ _
    (fun x => by by_cases hx : x.id = hid <;> simp [hx, hfu x]) u]
  rw [joinHoldings_map s.players _ _
    (fun x => by by_cases hx : x.id = hid <;> simp [hx, hfp x])]

/-- The achievement progress for the holding-derived requirement kinds
depends only on the (playerId, sport, isStaked) projection of the joined
holdings. -/
lemma computeProgress_proj_eq (a2 : Achievement)
    (toks toks1 : List (TokenHolding × Player))
    (hproj : toks1.map (fun t => (t.1.playerId, t.2.sport, t.1.isStaked)) =
      toks.map (fun t => (t.1.playerId, t.2.sport, t.1.isStaked)))
    (hreq : a2.requirement = "different_players" ∨
      a2.requirement = "nba_players" ∨ a2.requirement = "nfl_players")
    (txs txs2 : List (Transaction × Player)) (tv tv2 : ℚ) :
    computeProgress a2 txs toks1 tv = computeProgress a2 txs2 toks tv2 := by
  have hpid : toks1.map (fun t => t.1.playerId) =
      toks.map (fun t => t.1.playerId) := by
    have hc := congrArg (List.map (fun x : Nat × String × Bool => x.1)) hproj
    simpa [List.map_map, Function.comp] using hc
  have hnba : (toks1.filter (fun t => t.2.sport == "NBA")).length =
      (toks.filter (fun t => t.2.sport == "NBA")).length := by
    rw [← List.countP_eq_length_filter, ← List.countP_eq_length_filter]
    have hc := congrArg
      (List.countP (fun x : Nat × String × Bool => x.2.1 == "NBA")) hproj
    simpa [List.countP_map, Function.comp] using hc
  have hnfl : (toks1.filter (fun t => t.2.sport == "NFL")).length =
      (toks.filter (fun t => t.2.sport == "NFL")).length := by
    rw [← List.countP_eq_length_filter, ← List.countP_eq_length_filter]
    have hc := congrArg
      (List.countP (fun x : Nat × String × Bool => x.2.1 == "NFL")) hproj
    simpa [List.countP_map, Function.comp] using hc
  rcases hreq with h | h | h <;>
    simp [computeProgress, h, hpid, hnba, hnfl]

/-- C10: selling the entire amount of an unstaked holding succeeds and
leaves the holding record in the store with amount 0 rather than removing
it; the zero-amount holding still counts toward achievement progress for
the `different_players`, `nba_players` and `nfl_players` requirement kinds
(the joined holdings keep the same playerId/sport/isStaked projections, and
the sold player stays among the counted playerIds). -/
theorem sell_all_keeps_holding (s : State) (now u p : Nat) (pr : ℚ)
    (h : TokenHolding) (toks : List (TokenHolding × Player))
    (hu : u ≠ 0) (hp : p ≠ 0) (ha : h.amount ≠ 0) (hpr : pr ≠ 0)
    (hh : getTokenHolding s u p = some h) (hstk : h.isStaked = false)
    (hrefs : refsOK s u)
    (htoks : getUserTokens s u = some toks) :
    (sell s now u p h.amount pr).1 = none ∧
    (∃ h1, getTokenHolding (sell s now u p h.amount pr).2 u p = some h1 ∧
      h1.amount = 0 ∧ h1 ∈ (sell s now u p h.amount pr).2.holdings) ∧
    (∃ toks1, getUserTokens (sell s now u p h.amount pr).2 u = some toks1 ∧
      toks1.map (fun t => (t.1.playerId, t.2.sport, t.1.isStaked)) =
        toks.map (fun t => (t.1.playerId, t.2.sport, t.1.isStaked)) ∧
      p ∈ toks1.map (fun t => t.1.playerId) ∧
      (∀ a2 : Achievement, a2.requirement = "different_players" ∨
          a2.requirement = "nba_players" ∨ a2.requirement = "nfl_players" →
        ∀ txs txs2 tv tv2, computeProgress a2 txs toks1 tv =
          computeProgress a2 txs2 toks tv2)) := by
  obtain ⟨hs1, ⟨h1, hh1, hamt1⟩, _, _⟩ :=
    sell_ok_post s now u p h.amount pr hu hp ha hpr h hh hstk
      (le_refl h.amount) hrefs
  obtain ⟨pf, _, hsellEq⟩ := sell_ok s now u p h.amount pr hu hp ha hpr
    h hh hstk (le_refl h.amount) hrefs
  have hproj : ∃ toks1,
      getUserTokens (sell s now u p h.amount pr).2 u = some toks1 ∧
      toks1 = toks.map (fun t =>
        ((fun x => if x.id = h.id then
          { x with amount := h.amount - h.amount } else x) t.1, t.2)) := by
    rw [hsellEq]
    refine ⟨_, ?_, rfl⟩
    rw [getUserTokens_updatePortfolioHistory, getUserTokens_createTransaction,
      getUserTokens_update s h.id
        (fun x => { x with amount := h.amount - h.amount })
        (fun x => rfl) (fun x => rfl) u, htoks]
    rfl
  obtain ⟨toks1, htoks1, rfl⟩ := hproj
  have hprojeq : (toks.map (fun t =>
      ((fun x => if x.id = h.id then
        { x with amount := h.amount - h.amount } else x) t.1, t.2))).map
      (fun t => (t.1.playerId, t.2.sport, t.1.isStaked)) =
      toks.map (fun t => (t.1.playerId, t.2.sport, t.1.isStaked)) := by
    rw [List.map_map]
    apply List.map_congr_left
    intro t _
    by_cases ht : t.1.id = h.id <;> simp [Function.comp, ht]
  refine ⟨hs1, ⟨h1, hh1, by rw [hamt1]; exact Nat.sub_self _, ?_⟩,
    ⟨_, htoks1, hprojeq, ?_, ?_⟩⟩
  · exact findHolding_mem hh1
  · have hfst : toks.map (fun t => t.1) =
        s.holdings.filter (fun x => x.userId == u) :=
      joinHoldings_fst s.players _ toks htoks
    have hmemf : h ∈ s.holdings.filter (fun x => x.userId == u) :=
      List.mem_filter.2 ⟨findHolding_mem hh, by
        simp [(findHolding_keys hh).1]⟩
    rw [← hfst] at hmemf
    rcases List.mem_map.1 hmemf with ⟨t, htmem, hteq⟩
    have hppid : t.1.playerId = p := by
      rw [hteq]
      exact (findHolding_keys hh).2
    refine List.mem_map.2 ⟨(
      (fun x => if x.id = h.id then
        { x with amount := h.amount - h.amount } else x) t.1, t.2), ?_, ?_⟩
    · exact List.mem_map.2 ⟨t, htmem, rfl⟩
    · by_cases ht : t.1.id = h.id <;> simp [ht, hppid]
  · intro a2 hreq txs txs2 tv tv2
    exact computeProgress_proj_eq a2 toks _ hprojeq hreq txs txs2 tv tv2

/-- C10 witness: selling all ten tokens leaves the holding at amount 0 in
the store, and the `different_players` progress over the resulting joined
holdings still counts player 1. -/
theorem sell_all_keeps_holding_witness :
    (sell baseState 3 1 1 10 2).1 = none ∧
    (∃ h1, getTokenHolding (sell baseState 3 1 1 10 2).2 1 1 = some h1 ∧
      h1.amount = 0 ∧ h1 ∈ (sell baseState 3 1 1 10 2).2.holdings) ∧
    ∃ toks1, getUserTokens (sell baseState 3 1 1 10 2).2 1 = some toks1 ∧
      (1 ∈ toks1.map (fun t => t.1.playerId) ∧
        ∀ txs txs2 tv tv2,
          computeProgress ⟨1, "different_players", 5⟩ txs toks1 tv =
          computeProgress ⟨1, "different_players", 5⟩ txs2
            [(baseHolding, ⟨1, "NBA", 2⟩)] tv2) := by
  obtain ⟨hs1, hhold, ⟨toks1, htoks1, _, hmem, hcp⟩⟩ :=
    sell_all_keeps_holding baseState 3 1 1 2 baseHolding
      [(baseHolding, ⟨1, "NBA", 2⟩)] (by decide) (by decide) (by decide)
      (by decide) (by decide) (by decide) (by decide) (by decide)
  exact ⟨hs1, hhold, toks1, htoks1, hmem,
    fun txs txs2 tv tv2 => hcp ⟨1, "different_players", 5⟩
      (Or.inl rfl) txs txs2 tv tv2⟩

end StatCoin
